import Mathlib

/-!
Verification of the core components of a document-grounded RAG
question-answering backend (deterministic router, output evaluator,
vector store, retriever, generation client, ingestion pipeline).

Strings are modelled as `List Char`; Python floats are modelled as exact
rationals (`ℚ`); fallible operations return `Except`.  Each definition is a
shallow embedding of the corresponding Python function; the source file and
function are named in the doc comment.
-/

/-! ### Basic text utilities shared by several components

These model the Python string primitives used by the backend
(`str.lower`, `str.split`, `in`, `str.strip`, `str.count`) restricted to
the character operations the code performs. -/

namespace Txt

/-- ASCII lower-casing of one character (`str.lower` on the ASCII range). -/
def pyLower (c : Char) : Char :=
  if 'A' ≤ c ∧ c ≤ 'Z' then Char.ofNat (c.toNat + 32) else c

/-- Lower-case a whole string (`query.lower()`). -/
def lowerStr (s : List Char) : List Char := s.map pyLower

/-- Python `\s` / `str.split()` whitespace (ASCII). -/
def pyIsSpace (c : Char) : Bool :=
  c = ' ' ∨ c = '\t' ∨ c = '\n' ∨ c = '\r' ∨ c = '\x0b' ∨ c = '\x0c'

/-- Python regex `\w` word character (ASCII). -/
def isWordChar (c : Char) : Bool :=
  ('a' ≤ c ∧ c ≤ 'z') ∨ ('A' ≤ c ∧ c ≤ 'Z') ∨ ('0' ≤ c ∧ c ≤ '9') ∨ c = '_'

/-- Helper for `words`: accumulates the current word (reversed). -/
def wordsAux (cur : List Char) : List Char → List (List Char)
  | [] => if cur = [] then [] else [cur.reverse]
  | c :: cs =>
    if pyIsSpace c then
      if cur = [] then wordsAux [] cs else cur.reverse :: wordsAux [] cs
    else wordsAux (c :: cur) cs

/-- Python `str.split()` with no argument: maximal non-whitespace runs. -/
def words (s : List Char) : List (List Char) := wordsAux [] s

/-- `s.count("?")` for a single-character needle. -/
def countChar (s : List Char) (c : Char) : Nat := (s.filter (· = c)).length

/-- Does `needle` occur at the very start of `s`? -/
def isPrefixList : List Char → List Char → Bool
  | [], _ => true
  | _ :: _, [] => false
  | a :: as, b :: bs => a = b && isPrefixList as bs

/-- Python substring test `needle in hay`. -/
def containsSub (hay needle : List Char) : Bool :=
  isPrefixList needle hay ||
    match hay with
    | [] => false
    | _ :: t => containsSub t needle

/-- Python `str.strip()` (ASCII whitespace). -/
def pyStrip (s : List Char) : List Char :=
  ((s.dropWhile pyIsSpace).reverse.dropWhile pyIsSpace).reverse

/-- Regex word boundary `\b` test on the left of a position, given the
preceding character (`none` at the start of the string), for a pattern
that begins with a word character. -/
def boundaryOk (prev : Option Char) : Bool :=
  match prev with
  | none => true
  | some c => !isWordChar c

/-- Regex word boundary `\b` test on the right of a match that ends in a
word character: the rest of the string must be empty or start with a
non-word character. -/
def afterOk : List Char → Bool
  | [] => true
  | c :: _ => !isWordChar c

/-- Literal keyword occurring at the head of `s` with a right word
boundary after it (the keywords all end in a word character). -/
def kwAt (kw s : List Char) : Bool :=
  isPrefixList kw s && afterOk (s.drop kw.length)

/-- Scan `s` for a position with a left word boundary at which the local
predicate `p` (covering the rest of the pattern) holds.  Models
`re.search` for patterns of the form `\b...`. -/
def scanBound (p : List Char → Bool) (prev : Option Char) : List Char → Bool
  | [] => false
  | c :: rest => (boundaryOk prev && p (c :: rest)) || scanBound p (some c) rest

/-- `re.search(r"\b" + re.escape(kw) + r"\b", s)` for keywords made of
word characters and inner spaces (every keyword in the router's lists
starts and ends with a letter). -/
def wordOccurs (kw s : List Char) : Bool := scanBound (kwAt kw) none s

/-- Consume the literal `lit` from the head of `s`. -/
def matchLit (lit s : List Char) : Option (List Char) :=
  if isPrefixList lit s then some (s.drop lit.length) else none

/-- Consume `\s+` (one or more whitespace) from the head of `s`. -/
def dropSpaces1 (s : List Char) : Option (List Char) :=
  match s with
  | [] => none
  | c :: _ => if pyIsSpace c then some (s.dropWhile pyIsSpace) else none

end Txt

/-! ### Deterministic router — `src/backend/router/deterministic_router.py` -/

namespace Router

open Txt

/-- `COMPLEXITY_KEYWORDS` (matched as whole words, case-insensitive). -/
def COMPLEXITY_KEYWORDS : List (List Char) :=
  [ "compare", "comparison", "difference", "differences", "versus", "vs",
    "integrate", "integration", "configure", "configuration", "migrate",
    "migration", "troubleshoot", "troubleshooting", "architecture",
    "workflow", "optimize", "optimization", "analyze", "analysis",
    "strategy", "strategies", "compliance", "security", "audit",
    "enterprise", "scalability", "performance", "benchmark", "custom",
    "advanced", "multiple", "several", "complex", "detailed", "comprehensive",
    "explain how", "walk me through", "step by step", "in depth"
  ].map String.toList

/-- `AMBIGUITY_MARKERS` (case-insensitive substrings). -/
def AMBIGUITY_MARKERS : List (List Char) :=
  [ "it depends", "what if", "hypothetically", "in general",
    "is it possible", "can you explain", "could you elaborate",
    "what are the pros and cons", "trade-off", "tradeoff",
    "best practice", "best practices", "recommend", "recommendation",
    "should i", "which one", "what would"
  ].map String.toList

/-- `COMPLAINT_MARKERS` (case-insensitive substrings). -/
def COMPLAINT_MARKERS : List (List Char) :=
  [ "not working", "broken", "bug", "issue", "problem", "error",
    "frustrated", "disappointed", "unacceptable", "terrible",
    "worst", "angry", "complaint", "escalate", "refund",
    "cancel", "cancellation", "speak to manager", "supervisor"
  ].map String.toList

/-- Matcher for the comparison regex `\bvs\.?\b`: after the literal `vs`
either a right word boundary holds, or a dot follows and the boundary
holds after the dot (i.e. a word character follows the dot). -/
def vsDotAt (s : List Char) : Bool :=
  match matchLit (String.toList "vs") s with
  | none => false
  | some r =>
    afterOk r ||
      (match r with
       | '.' :: r2 =>
         (match r2 with
          | [] => false
          | d :: _ => isWordChar d)
       | _ => false)

/-- Matcher for `\s+to\b` etc.: one or more spaces, a literal word, then a
right word boundary.  Used by the two-word comparison patterns. -/
def spacesThenWord (w : List Char) (s : List Char) : Bool :=
  match dropSpaces1 s with
  | none => false
  | some r =>
    match matchLit w r with
    | none => false
    | some r2 => afterOk r2

/-- Matcher for `\bcompared?\s+to\b` at a position: literal `compare`,
optional `d` (both alternatives tried, as regex backtracking does),
whitespace, `to`, right boundary. -/
def comparedToAt (s : List Char) : Bool :=
  match matchLit (String.toList "compare") s with
  | none => false
  | some r =>
    (match r with
     | 'd' :: r2 => spacesThenWord (String.toList "to") r2
     | _ => false) ||
    spacesThenWord (String.toList "to") r

/-- Matcher for two-word patterns `\bw1\s+w2\b` at a position. -/
def wordPairAt (w1 w2 : List Char) (s : List Char) : Bool :=
  match matchLit w1 s with
  | none => false
  | some r => spacesThenWord w2 r

/-- Scan for the second `\bor\b` of `\bor\b.*\bor\b`: the `.*` may consume
any characters except a newline (`.` does not match `\n`); `prev` is the
character just before the current position. -/
def findSecondOr (prev : Option Char) : List Char → Bool
  | [] => false
  | c :: rest =>
    (boundaryOk prev && kwAt (String.toList "or") (c :: rest)) ||
    (c ≠ '\n' && findSecondOr (some c) rest)

/-- Matcher for `\bor\b.*\bor\b`: a bounded `or` here, then a second
bounded `or` later with no newline in between (the character preceding
the region after the first `or` is its final `r`). -/
def orOrAt (s : List Char) : Bool :=
  kwAt (String.toList "or") s && findSecondOr (some 'r') (s.drop 2)

/-- `COMPARISON_PATTERNS`: any of the seven case-insensitive regexes
matches (the router searches them over the lower-cased query, so the
literals are given in lower case). -/
def hasComparisonPattern (s : List Char) : Bool :=
  scanBound vsDotAt none s ||
  wordOccurs (String.toList "versus") s ||
  scanBound comparedToAt none s ||
  scanBound (wordPairAt (String.toList "difference") (String.toList "between")) none s ||
  scanBound (wordPairAt (String.toList "better") (String.toList "than")) none s ||
  scanBound (wordPairAt (String.toList "worse") (String.toList "than")) none s ||
  scanBound orOrAt none s

/-- Is `c` one of the sentence-ending characters `[.?!]`? -/
def isSentEnd (c : Char) : Bool := c = '.' ∨ c = '?' ∨ c = '!'

/-- `len(_SENTENCE_END_RE.findall(query))` for `[.?!](?:\s|$)`:
non-overlapping left-to-right matches of punctuation followed by a
whitespace character or the end of the string. -/
def sentenceCount : List Char → Nat
  | [] => 0
  | [c] => if isSentEnd c then 1 else 0
  | c :: d :: rest =>
    if isSentEnd c ∧ pyIsSpace d then sentenceCount rest + 1
    else sentenceCount (d :: rest)

/-- The feature record produced by `_extract_features`. -/
structure Features where
  word_count : Nat
  char_count : Nat
  question_count : Nat
  has_complexity_keywords : Bool
  has_ambiguity_markers : Bool
  has_complaint_markers : Bool
  has_comparison_pattern : Bool
  sentence_count : Nat
deriving Repr, DecidableEq

/-- `_extract_features(query)`. -/
def _extract_features (query : List Char) : Features :=
  let query_lower := lowerStr query
  { word_count := (words query_lower).length
    char_count := query.length
    question_count := countChar query '?'
    has_complexity_keywords := COMPLEXITY_KEYWORDS.any (fun kw => wordOccurs kw query_lower)
    has_ambiguity_markers := AMBIGUITY_MARKERS.any (fun m => containsSub query_lower m)
    has_complaint_markers := COMPLAINT_MARKERS.any (fun m => containsSub query_lower m)
    has_comparison_pattern := hasComparisonPattern query_lower
    sentence_count := sentenceCount query }

/-- `classify_query(query)`: the 6-node decision tree exactly as coded,
including the incremental `complexity_score` accumulation of NODE 5. -/
def classify_query (query : List Char) : String :=
  let f := _extract_features query
  if f.word_count ≤ 3 ∧ f.question_count ≤ 1 ∧ ¬ f.has_complexity_keywords then "simple"
  else if f.has_complaint_markers then "complex"
  else if f.question_count ≥ 3 then "complex"
  else if f.has_comparison_pattern then "complex"
  else
    let complexity_score :=
      (if f.has_complexity_keywords then 2 else 0) +
      (if f.has_ambiguity_markers then 2 else 0) +
      (if f.word_count > 40 then 1 else 0) +
      (if f.sentence_count ≥ 3 then 1 else 0)
    if complexity_score ≥ 2 then "complex"
    else if f.word_count > 25 ∧ f.has_ambiguity_markers then "complex"
    else "simple"

/-- The score of node 5 as the spec words it (section 4.5, rule 5). -/
def specNode5Score (f : Features) : Nat :=
  (if f.has_complexity_keywords then 2 else 0) +
  (if f.has_ambiguity_markers then 2 else 0) +
  (if f.word_count > 40 then 1 else 0) +
  (if f.sentence_count ≥ 3 then 1 else 0)

/-- The six-node first-match decision tree exactly as the spec states it
(section 4.5, rules 1-7), as a function of the extracted features. -/
def specDecisionTree (f : Features) : String :=
  if f.word_count ≤ 3 ∧ f.question_count ≤ 1 ∧ ¬ f.has_complexity_keywords then "simple"
  else if f.has_complaint_markers then "complex"
  else if f.question_count ≥ 3 then "complex"
  else if f.has_comparison_pattern then "complex"
  else if specNode5Score f ≥ 2 then "complex"
  else if f.word_count > 25 ∧ f.has_ambiguity_markers then "complex"
  else "simple"

end Router

/-! ### Output evaluator — `src/backend/evaluator/output_evaluator.py` -/

namespace Evaluator

open Txt

/-- `REFUSAL_PHRASES` (frozen; case-insensitive substrings). -/
def REFUSAL_PHRASES : List (List Char) :=
  [ "i cannot",
    "i can't",
    "i don't have information",
    "i don't have enough information",
    "i do not have",
    "i'm not sure",
    "i am not sure",
    "i'm unable to",
    "i am unable to",
    "outside my knowledge",
    "beyond my scope",
    "not able to help",
    "cannot assist with",
    "no information available",
    "unfortunately, i don't",
    "i apologize, but i",
    "i'm sorry, but i don't"
  ].map String.toList

/-- `ALLOWED_TERMS` (hallucination allow-list). -/
def ALLOWED_TERMS : List (List Char) :=
  [ "Clearpath", "Clearpath Assistant" ].map String.toList

/-- Is `c` an ASCII digit? -/
def isDigitC (c : Char) : Bool := '0' ≤ c ∧ c ≤ '9'

/-- Is `c` an ASCII upper-case letter? -/
def isUpperC (c : Char) : Bool := 'A' ≤ c ∧ c ≤ 'Z'

/-- Is `c` an ASCII lower-case letter? -/
def isLowerC (c : Char) : Bool := 'a' ≤ c ∧ c ≤ 'z'

/-- Case-insensitive literal at the head of `s` (for the `IGNORECASE`
unit alternatives of the price regex); returns the rest of `s`. -/
def matchLitCI (lit s : List Char) : Option (List Char) :=
  if isPrefixList lit (lowerStr (s.take lit.length)) ∧ lit.length ≤ s.length
  then some (s.drop lit.length) else none

/-- Optional cents group `(?:\.\d{2})?` of the price regex: a dot followed
by exactly two digits, or nothing. -/
def matchCents (s : List Char) : List Char × List Char :=
  match s with
  | '.' :: d1 :: d2 :: rest =>
    if isDigitC d1 ∧ isDigitC d2 then (['.', d1, d2], rest) else ([], s)
  | _ => ([], s)

/-- Optional period group `(?:\s*/\s*(?:month|year|mo|yr))?` of the price
regex (the alternatives are tried left to right, case-insensitively). -/
def matchPeriodUnit (s : List Char) : List Char × List Char :=
  let sp1 := s.takeWhile pyIsSpace
  let r1 := s.dropWhile pyIsSpace
  match r1 with
  | '/' :: r2 =>
    let sp2 := r2.takeWhile pyIsSpace
    let r3 := r2.dropWhile pyIsSpace
    let tryUnit := fun (u : List Char) =>
      match matchLitCI u r3 with
      | some rest => some (sp1 ++ '/' :: sp2 ++ r3.take u.length, rest)
      | none => none
    match tryUnit (String.toList "month") with
    | some p => p
    | none =>
      match tryUnit (String.toList "year") with
      | some p => p
      | none =>
        match tryUnit (String.toList "mo") with
        | some p => p
        | none =>
          match tryUnit (String.toList "yr") with
          | some p => p
          | none => ([], s)
  | _ => ([], s)

/-- One attempted match of `_PRICE_RE` at the head of `s`: returns the
matched text and the rest on success. -/
def priceMatchAt : List Char → Option (List Char × List Char)
  | '$' :: r =>
    let ds := r.takeWhile isDigitC
    let r1 := r.dropWhile isDigitC
    if ds = [] then none
    else
      let (cents, r2) := matchCents r1
      let (unitPart, r3) := matchPeriodUnit r2
      some ('$' :: ds ++ cents ++ unitPart, r3)
  | _ => none

/-- Driver for `re.findall(_PRICE_RE, s)`: non-overlapping left-to-right
matches.  The fuel starts at `s.length + 1`; every step consumes at least
one character, so the fuel never runs out. -/
def findallPrices : Nat → List Char → List (List Char)
  | 0, _ => []
  | _ + 1, [] => []
  | fuel + 1, c :: rest =>
    match priceMatchAt (c :: rest) with
    | some (m, r) => m :: findallPrices fuel r
    | none => findallPrices fuel rest

/-- `extract_prices(text)`. -/
def extract_prices (s : List Char) : List (List Char) :=
  findallPrices (s.length + 1) s

/-- One word token `[A-Z][a-z]+` at the head of `s`. -/
def wordTok : List Char → Option (List Char × List Char)
  | c :: r =>
    if isUpperC c then
      let ls := r.takeWhile isLowerC
      if ls = [] then none else some (c :: ls, r.dropWhile isLowerC)
    else none
  | [] => none

/-- Greedy repetitions of `(?:\s+[A-Z][a-z]+)` for the proper-noun regex:
returns the list of consumed groups (each `spaces ++ word`) and the rest. -/
def moreWords : Nat → List Char → List (List Char) × List Char
  | 0, s => ([], s)
  | fuel + 1, s =>
    let sp := s.takeWhile pyIsSpace
    let r1 := s.dropWhile pyIsSpace
    if sp = [] then ([], s)
    else
      match wordTok r1 with
      | none => ([], s)
      | some (w, r2) =>
        let (gs, r3) := moreWords fuel r2
        ((sp ++ w) :: gs, r3)

/-- One attempted match of `_PROPER_NOUN_RE` (`\b[A-Z][a-z]+(?:\s+[A-Z][a-z]+)+\b`)
at the head of `s` (the left boundary is checked by the driver).  If the
trailing `\b` fails after the last repetition, the regex backtracks one
repetition (after which the boundary holds, since a whitespace follows);
at least one repetition must remain. -/
def nounMatchAt (s : List Char) : Option (List Char × List Char) :=
  match wordTok s with
  | none => none
  | some (w1, r1) =>
    let (gs, r2) := moreWords r1.length r1
    if gs = [] then none
    else if afterOk r2 then some (w1 ++ gs.flatten, r2)
    else if 2 ≤ gs.length then
      some (w1 ++ gs.dropLast.flatten, gs.getLastD [] ++ r2)
    else none

/-- Driver for `re.findall(_PROPER_NOUN_RE, s)`: tracks the previous
character for the left `\b` and scans non-overlapping matches. -/
def findallNouns : Nat → Option Char → List Char → List (List Char)
  | 0, _, _ => []
  | _ + 1, _, [] => []
  | fuel + 1, prev, c :: rest =>
    if boundaryOk prev then
      match nounMatchAt (c :: rest) with
      | some (m, r) => m :: findallNouns fuel (some (m.getLastD c)) r
      | none => findallNouns fuel (some c) rest
    else findallNouns fuel (some c) rest

/-- `extract_proper_nouns(text)`. -/
def extract_proper_nouns (s : List Char) : List (List Char) :=
  findallNouns (s.length + 1) none s

/-- `check_hallucination(response_text, retrieved_chunks)`.  A retrieved
chunk is modelled by its `text` field, the only field the function reads
(`" ".join(c.get("text", "") for c in retrieved_chunks)`). -/
def check_hallucination (response_text : List Char)
    (retrieved_chunks : List (List Char)) : Option String :=
  let chunk_text := List.intercalate [' '] retrieved_chunks
  let response_prices := extract_prices response_text
  let chunk_prices := extract_prices chunk_text
  if response_prices.any (fun p => ¬ chunk_prices.contains p) then
    some "potential_hallucination"
  else
    let response_names := extract_proper_nouns response_text
    let chunk_names := extract_proper_nouns chunk_text
    if response_names.any
        (fun n => ¬ chunk_names.contains n ∧ ¬ ALLOWED_TERMS.contains n) then
      some "potential_hallucination"
    else none

/-- The flags contributed by check 3: `[flag]` when `check_hallucination`
returned a flag, nothing when it returned `None`. -/
def flagsOfHallu : Option String → List String
  | some f => [f]
  | none => []

/-- `evaluate_output(response_text, retrieval_count, retrieved_chunks)`:
the three sequential checks, each appending at most one flag. -/
def evaluate_output (response_text : List Char) (retrieval_count : Nat)
    (retrieved_chunks : List (List Char)) : List String :=
  let flags1 : List String :=
    if retrieval_count = 0 then ["no_context_warning"] else []
  let response_lower := lowerStr response_text
  let flags2 : List String :=
    if REFUSAL_PHRASES.any (fun p => containsSub response_lower p) then
      ["refusal_detected"]
    else []
  let flags3 : List String :=
    flagsOfHallu (check_hallucination response_text retrieved_chunks)
  flags1 ++ flags2 ++ flags3

end Evaluator

/-! ### Vector store — `src/backend/rag/vector_store.py`

The FAISS `IndexFlatIP` is modelled as a dimension together with the
ordered list of inserted vectors; the pickle sidecar as the ordered list
of metadata records; the two files on disk as optional contents.
Embeddings are exact rationals. -/

namespace VStore

/-- The metadata projection of a chunk (`ChunkRecord.to_dict`), i.e. one
entry of the pickle sidecar. -/
structure ChunkMeta where
  chunk_id : String
  text : String
  source_file : String
  page_number : Int
  chunk_index : Int
deriving Repr, DecidableEq

/-- `ChunkRecord`: metadata plus the (optional) embedding. -/
structure ChunkRecord where
  chunk_id : String
  text : String
  source_file : String
  page_number : Int
  chunk_index : Int
  embedding : Option (List ℚ)
deriving Repr, DecidableEq

/-- `ChunkRecord.to_dict()`: serializable metadata, no embedding. -/
def ChunkRecord.to_dict (r : ChunkRecord) : ChunkMeta :=
  { chunk_id := r.chunk_id
    text := r.text
    source_file := r.source_file
    page_number := r.page_number
    chunk_index := r.chunk_index }

/-- A FAISS `IndexFlatIP`: its dimension `d` and its vectors in insertion
order (the i-th vector has internal id i; `ntotal = vectors.length`). -/
structure FaissIndex where
  d : Nat
  vectors : List (List ℚ)
deriving Repr, DecidableEq

/-- The two sibling artifacts on disk (`index.faiss`, `index.pkl`);
`none` models an absent file. -/
structure DiskState where
  faiss_file : Option FaissIndex
  pkl_file : Option (List ChunkMeta)
deriving Repr, DecidableEq

/-- The in-memory `VectorStore` object: configured dimension, `_loaded`
flag, `_index` (None before `load`), `_metadata`. -/
structure VectorStore where
  dimension : Nat
  loaded : Bool
  index : Option FaissIndex
  metadata : List ChunkMeta
deriving Repr, DecidableEq

/-- `VectorStore.load()`: if both files exist, read them and validate the
dimension (a mismatch raises `RuntimeError`); otherwise initialise an
empty index of the configured dimension. -/
def VectorStore.load (st : VectorStore) (disk : DiskState) :
    Except String VectorStore :=
  match disk.faiss_file, disk.pkl_file with
  | some idx, some md =>
    if idx.d ≠ st.dimension then
      .error "FAISS index dimension mismatch"
    else
      .ok { st with index := some idx, metadata := md, loaded := true }
  | _, _ =>
    .ok { st with index := some ⟨st.dimension, []⟩, metadata := [], loaded := true }

/-- `VectorStore._ensure_loaded()`. -/
def VectorStore._ensure_loaded (st : VectorStore) (disk : DiskState) :
    Except String VectorStore :=
  if st.loaded then .ok st else st.load disk

/-- The rows of `np.array([r.embedding for r in records], dtype=np.float32)`:
defined only when every record has an embedding (a `None` entry makes the
dtype conversion raise). -/
def embRows : List ChunkRecord → Option (List (List ℚ))
  | [] => some []
  | r :: rs =>
    match r.embedding, embRows rs with
    | some v, some vs => some (v :: vs)
    | _, _ => none

/-- `np.array(...)` together with its `shape[1]`: all rows must exist and
have one common length (a ragged input raises inside numpy, and for an
empty list `shape[1]` does not exist — unreachable, since `add` returns
early on an empty record list). -/
def embMatrix (records : List ChunkRecord) : Option (Nat × List (List ℚ)) :=
  match embRows records with
  | none => none
  | some [] => none
  | some (v :: vs) =>
    if vs.all (fun w => w.length = v.length) then some (v.length, v :: vs)
    else none

/-- `VectorStore.add(records)`: ensure loaded; return early on an empty
list; build the embedding matrix; validate `shape[1]` against the
configured dimension; append vectors to the index and metadata
projections to the sidecar. -/
def VectorStore.add (st : VectorStore) (disk : DiskState)
    (records : List ChunkRecord) : Except String VectorStore := do
  let st ← st._ensure_loaded disk
  if records = [] then return st
  match embMatrix records with
  | none => .error "invalid embeddings array"
  | some (d, rows) =>
    if d ≠ st.dimension then
      .error "Embedding dimension mismatch"
    else
      match st.index with
      | some idx =>
        .ok { st with
                index := some ⟨idx.d, idx.vectors ++ rows⟩,
                metadata := st.metadata ++ records.map ChunkRecord.to_dict }
      | none => .error "index not initialised"

/-- `VectorStore.persist()`: ensure loaded, then write both artifacts
(the code writes each target file in place). -/
def VectorStore.persist (st : VectorStore) (disk : DiskState) :
    Except String (VectorStore × DiskState) := do
  let st ← st._ensure_loaded disk
  match st.index with
  | some idx => .ok (st, { faiss_file := some idx, pkl_file := some st.metadata })
  | none => .error "index not initialised"

/-- The disk after `persist()` fails between its two writes:
`faiss.write_index` rewrote `index.faiss` in place, but the pickle dump of
`index.pkl` did not happen (e.g. the disk filled up).  The source writes
directly to the target paths, with no temporary file and no rename, so
this is the on-disk state such a failure leaves behind. -/
def persistCrashMidway (st : VectorStore) (disk : DiskState) : DiskState :=
  match st.index with
  | some idx => { faiss_file := some idx, pkl_file := disk.pkl_file }
  | none => disk

/-- Inner product of two vectors. -/
def dot (u v : List ℚ) : ℚ := (List.zipWith (· * ·) u v).sum

/-- Stable insertion (descending by key) — Python's `sort` is stable, and
equal keys keep their original order. -/
def insertDescBy {α : Type} (key : α → ℚ) (c : α) : List α → List α
  | [] => [c]
  | d :: rest =>
    if key d < key c then c :: d :: rest else d :: insertDescBy key c rest

/-- Stable sort, descending by key (models `list.sort(key=…, reverse=True)`). -/
def sortDescBy {α : Type} (key : α → ℚ) (l : List α) : List α :=
  l.foldl (fun acc c => insertDescBy key c acc) []

/-- `VectorStore.search(query_embedding, k)`: ensure loaded; empty index
gives `[]`; otherwise the top-k vectors by inner product, with their
metadata and score.  FAISS pads under-filled results with id `-1`, which
the code filters out; taking at most `ntotal` results models that.  Under
the store invariant every internal id has a sidecar entry, so the
`filterMap` lookup never drops a result. -/
def VectorStore.search (st : VectorStore) (disk : DiskState)
    (q : List ℚ) (k : Nat) :
    Except String (VectorStore × List (ChunkMeta × ℚ)) := do
  let st ← st._ensure_loaded disk
  match st.index with
  | none => .error "index not initialised"
  | some idx =>
    if idx.vectors.length = 0 then .ok (st, [])
    else
      let scored := idx.vectors.enum.map (fun p => (p.1, dot q p.2))
      let ranked := (sortDescBy (fun p => p.2) scored).take k
      .ok (st, ranked.filterMap
        (fun p => (st.metadata.get? p.1).map (fun m => (m, p.2))))

/-- One public operation on the store. -/
inductive Op where
  | load
  | add (records : List ChunkRecord)
  | persist
  | search (q : List ℚ) (k : Nat)

/-- A whole system: the singleton store object plus the on-disk pair. -/
structure Sys where
  store : VectorStore
  disk : DiskState
deriving Repr, DecidableEq

/-- Executing one operation.  A raised exception propagates to the caller
and leaves both the in-memory object and the disk unchanged. -/
def Sys.step (s : Sys) (op : Op) : Sys :=
  match op with
  | .load =>
    match s.store.load s.disk with
    | .ok st' => ⟨st', s.disk⟩
    | .error _ => s
  | .add records =>
    match s.store.add s.disk records with
    | .ok st' => ⟨st', s.disk⟩
    | .error _ => s
  | .persist =>
    match s.store.persist s.disk with
    | .ok (st', disk') => ⟨st', disk'⟩
    | .error _ => s
  | .search q k =>
    match s.store.search s.disk q k with
    | .ok (st', _) => ⟨st', s.disk⟩
    | .error _ => s

/-- The fresh process state: `VectorStore()` with dimension 384, nothing
loaded, and no index files on disk yet (first use). -/
def Sys.init : Sys :=
  ⟨{ dimension := 384, loaded := false, index := none, metadata := [] },
   { faiss_file := none, pkl_file := none }⟩

/-- Run a sequence of operations from the fresh state. -/
def Sys.run (ops : List Op) : Sys := ops.foldl Sys.step Sys.init

/-- The quiescent-point invariant: the sidecar length equals the index
vector count, in memory (once loaded) and on disk (once persisted); all
dimensions are 384; an unloaded store is still the pristine initial one. -/
def consistent (s : Sys) : Prop :=
  s.store.dimension = 384 ∧
  (∀ idx, s.store.index = some idx →
    s.store.metadata.length = idx.vectors.length ∧ idx.d = 384) ∧
  (∀ idx md, s.disk.faiss_file = some idx → s.disk.pkl_file = some md →
    md.length = idx.vectors.length ∧ idx.d = 384) ∧
  (s.disk.faiss_file.isSome ↔ s.disk.pkl_file.isSome) ∧
  (s.store.loaded = false → s = Sys.init)

end VStore

/-! ### Retriever — `src/backend/rag/retriever.py` -/

namespace Retriever

open Txt

/-- `RetrievedChunk`: the transient projection the retriever works on.
The raw FAISS search results are dicts carrying the same four fields
(plus ids the retriever ignores), so they are modelled by this structure
as well. -/
structure RetrievedChunk where
  text : List Char
  source_file : List Char
  page_number : Int
  score : ℚ
deriving Repr, DecidableEq

/-- `_jaccard_similarity(a, b)`: character-set Jaccard similarity.
`set(a)` is modelled by `a.dedup` (distinct characters); `set_a | set_b`
by `(set_a ++ set_b).dedup`; `set_a & set_b` by filtering `set_a` on
membership in `set_b`.  Returns 0 when the union is empty. -/
def _jaccard_similarity (a b : List Char) : ℚ :=
  let set_a := a.dedup
  let set_b := b.dedup
  let union := (set_a ++ set_b).dedup
  if union = [] then 0
  else ((set_a.filter (· ∈ set_b)).length : ℚ) / (union.length : ℚ)

/-- An accepted chunk together with a ghost bit recording whether a
score-replacement ever overwrote the entry's fields.  The bit has no
influence on the computation; it only names the replacement events so the
deduplication property can be stated. -/
structure AChunk where
  chunk : RetrievedChunk
  overwritten : Bool
deriving Repr, DecidableEq

/-- The inner `for existing in accepted` loop of `deduplicate` for one
candidate: walk the accepted list; at the first entry with similarity
`> 0.80`, either overwrite its fields with the candidate's (when the
candidate's score is strictly higher) or leave it, and report
`is_duplicate = True`; otherwise report `False` with the list unchanged. -/
def dedupStep (candidate : RetrievedChunk) :
    List AChunk → List AChunk × Bool
  | [] => ([], false)
  | e :: rest =>
    if _jaccard_similarity candidate.text e.chunk.text > 8 / 10 then
      if candidate.score > e.chunk.score then
        ({ chunk := candidate, overwritten := true } :: rest, true)
      else (e :: rest, true)
    else
      let (rest', dup) := dedupStep candidate rest
      (e :: rest', dup)

/-- The outer `for candidate in chunks` loop of `deduplicate`: candidates
that found no duplicate are appended to the accepted list. -/
def dedupLoop (acc : List AChunk) : List RetrievedChunk → List AChunk
  | [] => acc
  | c :: cs =>
    let (acc', dup) := dedupStep c acc
    dedupLoop (if dup then acc' else acc' ++ [⟨c, false⟩]) cs

/-- `deduplicate(chunks)` with the ghost replacement bits retained. -/
def deduplicateA (chunks : List RetrievedChunk) : List AChunk :=
  dedupLoop [] chunks

/-- `deduplicate(chunks)`: the accepted chunks in order. -/
def deduplicate (chunks : List RetrievedChunk) : List RetrievedChunk :=
  (deduplicateA chunks).map AChunk.chunk

/-- Strip a trailing `.pdf` (`re.sub(r"\.pdf$", "", …, IGNORECASE)`). -/
def stripPdfExt (s : List Char) : List Char :=
  if lowerStr (s.drop (s.length - 4)) = String.toList ".pdf" ∧ 4 ≤ s.length
  then s.take (s.length - 4) else s

/-- A separator character of `re.split(r"[_\-.\s]+", …)`. -/
def isSepC (c : Char) : Bool := c = '_' ∨ c = '-' ∨ c = '.' ∨ pyIsSpace c

mutual

/-- `re.split` on separator runs: accumulating a token (reversed). -/
def splitSepsAux (cur : List Char) : List Char → List (List Char)
  | [] => [cur.reverse]
  | c :: r =>
    if isSepC c then cur.reverse :: splitSepsRun r else splitSepsAux (c :: cur) r

/-- `re.split` on separator runs: inside a run (an empty token results at
the end of the string, as `re.split` produces). -/
def splitSepsRun : List Char → List (List Char)
  | [] => [[]]
  | c :: r => if isSepC c then splitSepsRun r else splitSepsAux [c] r

end

/-- `re.split(r"[_\-.\s]+", stem)` (empty edge tokens included, exactly as
`re.split` yields them; they are dropped by the length filter anyway). -/
def splitSeps (s : List Char) : List (List Char) :=
  match s with
  | [] => [[]]
  | c :: r => if isSepC c then [] :: splitSepsRun r else splitSepsAux [c] r

/-- `_extract_filename_keywords(source_file)`. -/
def _extract_filename_keywords (source_file : List Char) : List (List Char) :=
  let stem := stripPdfExt source_file
  let tokens := splitSeps stem
  (tokens.filter (fun t => 3 ≤ t.length)).map lowerStr

/-- The per-chunk body of `_apply_reranking_boost`: add `+0.05` once if
any filename keyword occurs as a substring of the lower-cased query. -/
def boostChunk (query_lower : List Char) (chunk : RetrievedChunk) :
    RetrievedChunk :=
  if (_extract_filename_keywords chunk.source_file).any
      (fun kw => containsSub query_lower kw) then
    { chunk with score := chunk.score + 5 / 100 }
  else chunk

/-- Stable insertion for the descending re-sort (Python's stable sort). -/
def insertScoreDesc (c : RetrievedChunk) :
    List RetrievedChunk → List RetrievedChunk
  | [] => [c]
  | d :: rest =>
    if d.score < c.score then c :: d :: rest else d :: insertScoreDesc c rest

/-- `chunks.sort(key=lambda c: c.score, reverse=True)`. -/
def sortScoreDesc (l : List RetrievedChunk) : List RetrievedChunk :=
  l.foldl (fun acc c => insertScoreDesc c acc) []

/-- `_apply_reranking_boost(chunks, query_lower)`: boost each chunk at
most once, then re-sort descending by score. -/
def _apply_reranking_boost (chunks : List RetrievedChunk)
    (query_lower : List Char) : List RetrievedChunk :=
  sortScoreDesc (chunks.map (boostChunk query_lower))

/-- `retrieve(query, k, threshold)` downstream of the FAISS search: the
embedding and `vector_store.search` cross into external native code, so
the function is modelled from the raw search results onward (step 3:
threshold filter, step 4: re-rank boost, step 5: deduplicate). -/
def retrieveFrom (raw_results : List RetrievedChunk) (query : List Char)
    (threshold : ℚ) : List RetrievedChunk :=
  let retrieved := raw_results.filter (fun r => ¬ r.score < threshold)
  let query_lower := lowerStr query
  let boosted := _apply_reranking_boost retrieved query_lower
  deduplicate boosted

end Retriever

/-! ### Generation client — `src/backend/llm/groq_client.py`

The network call is external; each attempt's result is supplied by an
environment `env : Nat → AttemptOutcome` giving the outcome of the i-th
API call.  The model records how many calls were made, which backoff
delays were slept, and how `generate` finished. -/

namespace Groq

/-- The possible outcomes of one `chat.completions.create` call, mirroring
the `except` arms of `generate`. -/
inductive AttemptOutcome where
  | success
  | badRequest
  | statusErr (status_code : Option Int)
  | timeoutErr
  | connectionErr
  | otherErr
deriving Repr, DecidableEq

/-- How `generate` finished. -/
inductive GenOutcome where
  | ok (attempt : Nat)
  | raisedBadRequest (attempt : Nat)
  | raised4xxStatus (attempt : Nat) (code : Int)
  | raisedOther (attempt : Nat)
  | unreachable (last : AttemptOutcome)
deriving Repr, DecidableEq

/-- Observable trace of one `generate` call: number of API attempts made,
backoff delays slept (in order, seconds), and the outcome. -/
structure GenTrace where
  attempts : Nat
  sleeps : List Nat
  outcome : GenOutcome
deriving Repr, DecidableEq

/-- `_MAX_RETRIES`. -/
def _MAX_RETRIES : Nat := 2

/-- `_BACKOFF_DELAYS` (seconds between retries). -/
def _BACKOFF_DELAYS : List Nat := [1, 3]

/-- `getattr(exc, "status_code", None)`. -/
def statusCodeOf : AttemptOutcome → Option Int
  | .statusErr c => c
  | _ => none

/-- The `for attempt in range(_MAX_RETRIES + 1)` loop of `generate`.
`attempt` is the current index, `remaining` the iterations left
(initially `_MAX_RETRIES + 1`), `sleeps` the delays slept so far
(reversed), `last` the `last_exception` variable.  Falling out of the
loop raises `ConnectionError(… last_exception)`. -/
def generateGo (env : Nat → AttemptOutcome) :
    Nat → Nat → List Nat → Option AttemptOutcome → GenTrace
  | attempt, 0, sleeps, last =>
    ⟨attempt, sleeps.reverse, .unreachable (last.getD .connectionErr)⟩
  | attempt, remaining + 1, sleeps, _ =>
    match env attempt with
    | .success => ⟨attempt + 1, sleeps.reverse, .ok attempt⟩
    | .badRequest => ⟨attempt + 1, sleeps.reverse, .raisedBadRequest attempt⟩
    | .otherErr => ⟨attempt + 1, sleeps.reverse, .raisedOther attempt⟩
    | e =>
      match statusCodeOf e with
      | some code =>
        if 400 ≤ code ∧ code < 500 then
          ⟨attempt + 1, sleeps.reverse, .raised4xxStatus attempt code⟩
        else if attempt < _MAX_RETRIES then
          generateGo env (attempt + 1) remaining
            (_BACKOFF_DELAYS.getD attempt 0 :: sleeps) (some e)
        else generateGo env (attempt + 1) remaining sleeps (some e)
      | none =>
        if attempt < _MAX_RETRIES then
          generateGo env (attempt + 1) remaining
            (_BACKOFF_DELAYS.getD attempt 0 :: sleeps) (some e)
        else generateGo env (attempt + 1) remaining sleeps (some e)

/-- `GroqClient.generate(...)` under the attempt environment `env`. -/
def generate (env : Nat → AttemptOutcome) : GenTrace :=
  generateGo env 0 (_MAX_RETRIES + 1) [] none

/-- A retriable failure in the sense of the spec: timeout, connection
failure, or 5xx status. -/
def retriable5xx (o : AttemptOutcome) : Prop :=
  o = .timeoutErr ∨ o = .connectionErr ∨
    ∃ c : Int, o = .statusErr (some c) ∧ 500 ≤ c ∧ c < 600

/-- An explicit 4xx client error: `groq.BadRequestError`, or an
`APIStatusError` whose `status_code` lies in 400..499. -/
def is4xx (o : AttemptOutcome) : Prop :=
  o = .badRequest ∨ ∃ c : Int, o = .statusErr (some c) ∧ 400 ≤ c ∧ c < 500

end Groq

/-! ### Ingestion — `src/backend/rag/ingestion.py` (with
`src/backend/utils/text_sanitizer.py` and the word-based fallback of
`src/backend/utils/token_counter.py`)

PDF parsing itself is external (PyMuPDF); ingestion is modelled from the
raw per-page text onward.  The tokenizer of the embedding model and the
embedding model itself are external network-loaded artifacts, so the
pipeline is parametric in `ct` (`count_tokens`), `glnt`
(`get_last_n_tokens`) and `embed`; the word-based fallbacks of
`token_counter.py` are embedded below as one concrete instantiation. -/

namespace Ingest

open Txt Evaluator

/-- Characters kept by `re.sub(r"[^\x09\x0A\x0D\x20-\x7E\x80-\xFF]", "", …)`. -/
def allowedPdfChar (c : Char) : Bool :=
  c = '\x09' ∨ c = '\x0a' ∨ c = '\x0d' ∨
  (0x20 ≤ c.toNat ∧ c.toNat ≤ 0x7e) ∨ (0x80 ≤ c.toNat ∧ c.toNat ≤ 0xff)

/-- Horizontal whitespace of `re.sub(r"[ \t]+", " ", …)`. -/
def isHT (c : Char) : Bool := c = ' ' ∨ c = '\t'

/-- Collapse `[ \t]+` runs to a single space; the flag records whether the
previous character was part of such a run. -/
def collapseHT (inRun : Bool) : List Char → List Char
  | [] => []
  | c :: r =>
    if isHT c then
      if inRun then collapseHT true r else ' ' :: collapseHT true r
    else c :: collapseHT false r

/-- Collapse `\n{3,}` runs to exactly two newlines; `run` is the length of
the current newline run so far. -/
def collapseNL (run : Nat) : List Char → List Char
  | [] => []
  | c :: r =>
    if c = '\n' then
      if run < 2 then '\n' :: collapseNL (run + 1) r else collapseNL (run + 1) r
    else c :: collapseNL 0 r

/-- `sanitize_pdf_text(text)`: drop NULs and non-printable control
characters (except TAB/LF/CR, keeping `\x20-\x7E` and `\x80-\xFF`),
collapse horizontal whitespace, cap newline runs at two, strip. -/
def sanitize_pdf_text (text : List Char) : List Char :=
  if text = [] then []
  else
    pyStrip (collapseNL 0 (collapseHT false
      ((text.filter (· ≠ '\x00')).filter allowedPdfChar)))

/-- Digit-string to number (`int(match.group(1))`). -/
def digitsToNat (ds : List Char) : Nat :=
  ds.foldl (fun a c => 10 * a + (c.toNat - 48)) 0

/-- One attempted match of `\[PAGE_BREAK:(\d+)\]` at the head of `s`:
returns the match length and the parsed page number. -/
def markerAt (s : List Char) : Option (Nat × Nat) :=
  match matchLit (String.toList "[PAGE_BREAK:") s with
  | none => none
  | some r =>
    let ds := r.takeWhile isDigitC
    let r1 := r.dropWhile isDigitC
    if ds = [] then none
    else
      match r1 with
      | ']' :: _ => some (12 + ds.length + 1, digitsToNat ds)
      | _ => none

/-- Scan for all marker matches with their character offsets
(`_PAGE_BREAK_PATTERN.finditer`); fuelled, one unit per character. -/
def buildPageMapAux : Nat → Nat → List Char → List (Nat × Nat)
  | 0, _, _ => []
  | _ + 1, _, [] => []
  | fuel + 1, pos, c :: r =>
    match markerAt (c :: r) with
    | some (len, n) => (pos, n) :: buildPageMapAux fuel (pos + len) ((c :: r).drop len)
    | none => buildPageMapAux fuel (pos + 1) r

/-- Stable insertion, ascending by offset (`sorted(…, key=lambda x: x[0])`). -/
def insertOffAsc (p : Nat × Nat) : List (Nat × Nat) → List (Nat × Nat)
  | [] => [p]
  | q :: rest => if p.1 < q.1 then p :: q :: rest else q :: insertOffAsc p rest

/-- Stable sort ascending by offset. -/
def sortOffAsc (l : List (Nat × Nat)) : List (Nat × Nat) :=
  l.foldl (fun acc p => insertOffAsc p acc) []

/-- `_build_page_map(full_text)`. -/
def _build_page_map (full_text : List Char) : List (Nat × Nat) :=
  sortOffAsc (buildPageMapAux (full_text.length + 1) 0 full_text)

/-- `_PAGE_BREAK_PATTERN.sub("", text)`: remove every marker. -/
def stripMarkers : Nat → List Char → List Char
  | 0, s => s
  | _ + 1, [] => []
  | fuel + 1, c :: r =>
    match markerAt (c :: r) with
    | some (len, _) => stripMarkers fuel ((c :: r).drop len)
    | none => c :: stripMarkers fuel r

/-- The marker text `f"[PAGE_BREAK:{n}]"`. -/
def pageBreakMarker (n : Nat) : List Char :=
  String.toList "[PAGE_BREAK:" ++ Nat.toDigits 10 n ++ [']']

/-- `extract_text_from_pdf`, modelled from the raw per-page text that
PyMuPDF returns: sanitize each page, append `"\n[PAGE_BREAK:{i+1}]\n"`,
and fail when nothing but markers and whitespace remains. -/
def extract_text_from_pdf (pages : List (List Char)) :
    Except String (List Char × Nat) :=
  let full_text := pages.enum.foldl
    (fun acc p =>
      acc ++ sanitize_pdf_text p.2 ++ '\n' :: pageBreakMarker (p.1 + 1) ++ ['\n'])
    []
  if pyStrip (stripMarkers (full_text.length + 1) full_text) = [] then
    .error "contains no extractable text"
  else .ok (full_text, pages.length)

/-- `_CHUNK_SIZE` (tokens). -/
def _CHUNK_SIZE : Nat := 512

/-- `_CHUNK_OVERLAP` (tokens). -/
def _CHUNK_OVERLAP : Nat := 64

/-- `_SEPARATORS`. -/
def _SEPARATORS : List (List Char) :=
  [ "\n\n", "\n", ". ", " " ].map String.toList

/-- `text.split(sep)` for a non-empty separator; fuelled, one unit per
consumed character. -/
def splitOnSubAux (sep : List Char) : Nat → List Char → List Char → List (List Char)
  | _, cur, [] => [cur.reverse]
  | 0, cur, rest => [cur.reverse ++ rest]
  | fuel + 1, cur, c :: r =>
    if isPrefixList sep (c :: r) then
      cur.reverse :: splitOnSubAux sep fuel [] ((c :: r).drop sep.length)
    else splitOnSubAux sep fuel (c :: cur) r

/-- `text.split(sep)`. -/
def splitOnSub (text sep : List Char) : List (List Char) :=
  splitOnSubAux sep (text.length + 1) [] text

/-- The `for segment in segments` walk of `_recursive_split`: greedy
accumulation into `current`, flushing with a `get_last_n_tokens` overlap,
and recursing (via `splitRest`, the splitter for the remaining
separators) when a single segment alone exceeds the chunk size.  Returns
the flushed chunks and the final buffer. -/
def segWalk (ct : List Char → Nat) (glnt : List Char → Nat → List Char)
    (sep : List Char) (splitRest : List Char → List (List Char)) :
    List Char → List (List Char) → List (List Char) × List Char
  | current, [] => ([], current)
  | current, seg :: rest =>
    let candidate := if current = [] then seg else current ++ sep ++ seg
    if ct candidate > _CHUNK_SIZE then
      if current ≠ [] then
        let overlap := glnt current _CHUNK_OVERLAP
        let newCur := if overlap ≠ [] then overlap ++ sep ++ seg else seg
        let (chs, fin) := segWalk ct glnt sep splitRest newCur rest
        (current :: chs, fin)
      else
        let sub := splitRest seg
        let (chs, fin) := segWalk ct glnt sep splitRest (sub.getLastD []) rest
        (sub.dropLast ++ chs, fin)
    else segWalk ct glnt sep splitRest candidate rest

/-- `_recursive_split(text, separators)`, parametric in `count_tokens`
(`ct`) and `get_last_n_tokens` (`glnt`). -/
def _recursive_split (ct : List Char → Nat) (glnt : List Char → Nat → List Char) :
    List (List Char) → List Char → List (List Char)
  | seps, text =>
    if ct text ≤ _CHUNK_SIZE then [text]
    else
      match seps with
      | [] =>
        let ws := words text
        let mid := max 1 (ws.length / 2)
        [List.intercalate [' '] (ws.take mid), List.intercalate [' '] (ws.drop mid)]
      | sep :: remaining_seps =>
        if ¬ containsSub text sep then
          _recursive_split ct glnt remaining_seps text
        else
          let segments := splitOnSub text sep
          let (chunks, current) :=
            segWalk ct glnt sep (fun t => _recursive_split ct glnt remaining_seps t)
              [] segments
          if current ≠ [] then chunks ++ [current] else chunks
termination_by seps _ => seps.length

/-- `str.find(sub, start)` scanning helper. -/
def findFromAux (sub : List Char) : Nat → List Char → Option Nat
  | i, [] => if isPrefixList sub [] then some i else none
  | i, c :: r =>
    if isPrefixList sub (c :: r) then some i else findFromAux sub (i + 1) r

/-- `hay.find(sub, start)` (`none` for Python's `-1`). -/
def findFrom (hay sub : List Char) (start : Nat) : Option Nat :=
  if hay.length < start then none else findFromAux sub start (hay.drop start)

/-- `_lookup_page` body: walk the sorted map, updating while the marker
offset is `≤ char_offset`, breaking at the first larger one. -/
def lookupAux (char_offset : Nat) (page : Nat) : List (Nat × Nat) → Nat
  | [] => page
  | (off, p) :: rest =>
    if off ≤ char_offset then lookupAux char_offset p rest else page

/-- `_lookup_page(char_offset, page_map)`: page of the nearest marker at
or before the offset, defaulting to page 1. -/
def _lookup_page (char_offset : Nat) (page_map : List (Nat × Nat)) : Nat :=
  lookupAux char_offset 1 page_map

/-- The page-assignment loop of `chunk_text`: skip blank chunks, locate
each chunk in the clean text from the advancing cursor (falling back to a
global search), remap the clean offset proportionally into the full text
(`int(idx / max(len(clean), 1) * len(full))` — nonnegative, so Python's
truncation is the floor), and look up the page.  An unlocatable chunk
gets page 1 and leaves the cursor alone. -/
def assignPages (clean full : List Char) (page_map : List (Nat × Nat)) :
    Nat → List (List Char) → List (List Char × Nat)
  | _, [] => []
  | search_start, c :: cs =>
    if pyStrip c = [] then assignPages clean full page_map search_start cs
    else
      let idx :=
        match findFrom clean c search_start with
        | some i => some i
        | none => findFrom clean c 0
      match idx with
      | some i =>
        let proportion : ℚ := (i : ℚ) / (max clean.length 1 : ℚ)
        let approx_full_offset : Nat := (Int.floor (proportion * (full.length : ℚ))).toNat
        (pyStrip c, _lookup_page approx_full_offset page_map) ::
          assignPages clean full page_map (i + c.length) cs
      | none =>
        (pyStrip c, 1) :: assignPages clean full page_map search_start cs

/-- `chunk_text(full_text)`: build the page map, strip the markers,
recursively split, and assign pages. -/
def chunk_text (ct : List Char → Nat) (glnt : List Char → Nat → List Char)
    (full_text : List Char) : List (List Char × Nat) :=
  let page_map := _build_page_map full_text
  let clean_text := stripMarkers (full_text.length + 1) full_text
  let raw_chunks := _recursive_split ct glnt _SEPARATORS clean_text
  assignPages clean_text full_text page_map 0 raw_chunks

/-- A `ChunkRecord` as built by `ingest_pdf`.  `str(uuid.uuid4())` is
fresh external randomness; the id is modelled by the creation ordinal. -/
structure IngRecord where
  chunk_id : Nat
  text : List Char
  source_file : List Char
  page_number : Nat
  chunk_index : Nat
  embedding : List ℚ
deriving Repr, DecidableEq

/-- `ingest_pdf(file_path)` from the extracted page texts onward, up to
the record list it returns (steps 5-6 hand the records to the vector
store, which is covered by the store model). -/
def ingest_pdf (ct : List Char → Nat) (glnt : List Char → Nat → List Char)
    (embed : List Char → List ℚ) (pages : List (List Char))
    (filename : List Char) : Except String (List IngRecord) := do
  let ft ← extract_text_from_pdf pages
  let chunks_meta := chunk_text ct glnt ft.1
  if chunks_meta = [] then .error "produced no chunks after splitting"
  else
    let texts := chunks_meta.map Prod.fst
    let embeddings := texts.map embed
    .ok ((List.zip chunks_meta embeddings).enum.map
      (fun p =>
        { chunk_id := p.1
          text := p.2.1.1
          source_file := filename
          page_number := p.2.1.2
          chunk_index := p.1
          embedding := p.2.2 }))

/-- The word-based fallback of `count_tokens` (`int(len(words) / 0.75)`;
the quotient is the nonnegative exact value `4n/3` truncated). -/
def count_tokens_fallback (text : List Char) : Nat :=
  if text = [] then 0 else (words text).length * 4 / 3

/-- The word-based fallback of `get_last_n_tokens`
(`max(1, int(n * 0.75))` trailing words, space-joined). -/
def get_last_n_tokens_fallback (text : List Char) (n : Nat) : List Char :=
  if text = [] ∨ n = 0 then []
  else
    let ws := words text
    let word_count := max 1 (n * 3 / 4)
    List.intercalate [' '] (ws.drop (ws.length - word_count))

end Ingest

/-! ### Theorems -/

/-- Every path of `check_hallucination` returns `None` or the literal
`'potential_hallucination'`. -/
theorem Evaluator.check_hallucination_cases (rt : List Char) (ch : List (List Char)) :
    check_hallucination rt ch = none ∨
    check_hallucination rt ch = some "potential_hallucination" := by
  simp only [check_hallucination]
  split_ifs <;> simp

/-- A response with no price match and no proper-noun match is never
flagged as a hallucination, whatever the chunks are. -/
theorem Evaluator.check_hallucination_none_of_empty (rt : List Char)
    (ch : List (List Char)) (h1 : extract_prices rt = [])
    (h2 : extract_proper_nouns rt = []) :
    check_hallucination rt ch = none := by
  unfold check_hallucination
  rw [h1, h2]
  simp

/-- C1: for every query string, `classify_query` returns exactly one of
'simple' or 'complex', and its value is the first-match six-node decision
tree of spec section 4.5 applied to the extracted features (node 1 short
simple rule; complaint, multi-question, comparison nodes; the scored node
5; the long-ambiguous node 6; default simple). -/
theorem C1_classify_query_decision_tree (q : List Char) :
    (Router.classify_query q = "simple" ∨ Router.classify_query q = "complex") ∧
    Router.classify_query q = Router.specDecisionTree (Router._extract_features q) := by
  have h2 : Router.classify_query q =
      Router.specDecisionTree (Router._extract_features q) := rfl
  refine ⟨?_, h2⟩
  rw [h2]
  unfold Router.specDecisionTree
  split_ifs <;> simp

/-- C10: the flag list returned by `evaluate_output` is always a
subsequence of the fixed sequence
`[no_context_warning, refusal_detected, potential_hallucination]`. -/
theorem C10_evaluator_flag_order (r : List Char) (n : Nat) (cs : List (List Char)) :
    List.Sublist (Evaluator.evaluate_output r n cs)
      ["no_context_warning", "refusal_detected", "potential_hallucination"] := by
  simp only [Evaluator.evaluate_output]
  rcases Evaluator.check_hallucination_cases r cs with h | h <;> rw [h] <;>
    split_ifs <;> decide

/-- The hallucination check contributes no `refusal_detected` flag. -/
theorem Evaluator.count_refusal_of_hallu (rt : List Char) (chs : List (List Char)) :
    List.count "refusal_detected" (flagsOfHallu (check_hallucination rt chs)) = 0 := by
  rcases check_hallucination_cases rt chs with h | h <;> rw [h] <;> decide

/-- C8: for each of the 17 frozen refusal phrases `p`, evaluating
`"prefix " + p + " suffix"` with `retrieval_count = 1` and a single chunk
yields the `refusal_detected` flag exactly once (whatever the chunk text
is); in general the refusal flag appears at most once; and the frozen
list has exactly 17 phrases. -/
theorem C8_refusal_flag_exactly_once :
    (∀ p ∈ Evaluator.REFUSAL_PHRASES, ∀ chunk : List Char,
      (Evaluator.evaluate_output
          (String.toList "prefix " ++ p ++ String.toList " suffix") 1 [chunk]).count
        "refusal_detected" = 1) ∧
    (∀ (r : List Char) (n : Nat) (cs : List (List Char)),
      (Evaluator.evaluate_output r n cs).count "refusal_detected" ≤ 1) ∧
    Evaluator.REFUSAL_PHRASES.length = 17 := by
  refine ⟨?_, ?_, by decide⟩
  · intro p hp chunk
    fin_cases hp <;>
      · simp +decide [Evaluator.evaluate_output]
        exact Evaluator.count_refusal_of_hallu _ _
  · intro r n cs
    simp only [Evaluator.evaluate_output]
    rcases Evaluator.check_hallucination_cases r cs with h | h <;> rw [h] <;>
      split_ifs <;> decide

/-- Witness for C8 at the first frozen phrase and an empty chunk. -/
theorem C8_refusal_flag_exactly_once_witness :
    (Evaluator.evaluate_output
        (String.toList "prefix " ++ String.toList "i cannot" ++ String.toList " suffix")
        1 [[]]).count "refusal_detected" = 1 :=
  C8_refusal_flag_exactly_once.1 (String.toList "i cannot") (by decide) []

/-- One retriable attempt before the last: the loop sleeps the backoff
delay for this attempt and moves on to the next attempt, remembering the
exception. -/
theorem Groq.retriable_step (env : Nat → Groq.AttemptOutcome) (a r : Nat)
    (sleeps : List Nat) (last : Option Groq.AttemptOutcome)
    (ha : a < Groq._MAX_RETRIES) (he : Groq.retriable5xx (env a)) :
    Groq.generateGo env a (r + 1) sleeps last =
      Groq.generateGo env (a + 1) r
        (Groq._BACKOFF_DELAYS.getD a 0 :: sleeps) (some (env a)) := by
  rcases he with h | h | ⟨c, h, hc⟩
  · rw [Groq.generateGo, h]
    simp [Groq.statusCodeOf, ha]
  · rw [Groq.generateGo, h]
    simp [Groq.statusCodeOf, ha]
  · rw [Groq.generateGo, h]
    simp only [Groq.statusCodeOf]
    rw [if_neg (show ¬(400 ≤ c ∧ c < 500) by omega), if_pos ha]

/-- The last retriable attempt: the loop ends and `generate` raises the
dedicated unreachable error carrying the last exception. -/
theorem Groq.retriable_last (env : Nat → Groq.AttemptOutcome)
    (sleeps : List Nat) (last : Option Groq.AttemptOutcome)
    (he : Groq.retriable5xx (env 2)) :
    Groq.generateGo env 2 1 sleeps last =
      ⟨3, sleeps.reverse, .unreachable (env 2)⟩ := by
  rcases he with h | h | ⟨c, h, hc⟩
  · rw [Groq.generateGo, h]
    simp [Groq.statusCodeOf, Groq._MAX_RETRIES, Groq.generateGo]
  · rw [Groq.generateGo, h]
    simp [Groq.statusCodeOf, Groq._MAX_RETRIES, Groq.generateGo]
  · rw [Groq.generateGo, h]
    simp only [Groq.statusCodeOf]
    rw [if_neg (show ¬(400 ≤ c ∧ c < 500) by omega),
      if_neg (show ¬(2 < Groq._MAX_RETRIES) by decide), Groq.generateGo]
    simp

/-- A 4xx attempt raises at once: one more API call, no further retry. -/
theorem Groq.fourxx_step (env : Nat → Groq.AttemptOutcome) (a r : Nat)
    (sleeps : List Nat) (last : Option Groq.AttemptOutcome)
    (h4 : Groq.is4xx (env a)) :
    (Groq.generateGo env a (r + 1) sleeps last).attempts = a + 1 ∧
    ((Groq.generateGo env a (r + 1) sleeps last).outcome = .raisedBadRequest a ∨
     ∃ c, env a = .statusErr (some c) ∧
       (Groq.generateGo env a (r + 1) sleeps last).outcome = .raised4xxStatus a c) := by
  rcases h4 with h | ⟨c, h, hc⟩ <;> rw [Groq.generateGo, h]
  · exact ⟨rfl, Or.inl rfl⟩
  · simp only [Groq.statusCodeOf]
    rw [if_pos (by omega)]
    exact ⟨rfl, Or.inr ⟨c, rfl, rfl⟩⟩

/-- C5: when every attempt fails retriably (timeout, connection failure,
or 5xx), `generate` makes exactly 3 API attempts (1 + 2 retries), sleeps
the backoff delays 1 s and 3 s before attempts 2 and 3, and fails with
the single dedicated unreachable kind carrying the last cause; and when
an attempt fails with an explicit 4xx client error (after any retriable
earlier attempts), that error propagates immediately with zero additional
attempts. -/
theorem C5_generate_retry_policy :
    (∀ env : Nat → Groq.AttemptOutcome,
      (∀ i, i < Groq._MAX_RETRIES + 1 → Groq.retriable5xx (env i)) →
      Groq.generate env = ⟨3, [1, 3], .unreachable (env 2)⟩) ∧
    (∀ (env : Nat → Groq.AttemptOutcome) (j : Nat),
      j < Groq._MAX_RETRIES + 1 →
      (∀ i, i < j → Groq.retriable5xx (env i)) →
      Groq.is4xx (env j) →
      (Groq.generate env).attempts = j + 1 ∧
      ((Groq.generate env).outcome = .raisedBadRequest j ∨
       ∃ c, env j = .statusErr (some c) ∧
         (Groq.generate env).outcome = .raised4xxStatus j c)) := by
  constructor
  · intro env h
    rw [Groq.generate, Groq._MAX_RETRIES,
      Groq.retriable_step env 0 2 [] none (by decide) (h 0 (by decide)),
      Groq.retriable_step env 1 1 _ _ (by decide) (h 1 (by decide)),
      Groq.retriable_last env _ _ (h 2 (by decide))]
    rfl
  · intro env j hj hprev h4
    rw [Groq._MAX_RETRIES] at hj
    rw [Groq.generate, Groq._MAX_RETRIES]
    interval_cases j
    · exact Groq.fourxx_step env 0 2 [] none h4
    · rw [Groq.retriable_step env 0 2 [] none (by decide) (hprev 0 (by decide))]
      exact Groq.fourxx_step env 1 1 _ _ h4
    · rw [Groq.retriable_step env 0 2 [] none (by decide) (hprev 0 (by decide)),
        Groq.retriable_step env 1 1 _ _ (by decide) (hprev 1 (by decide))]
      exact Groq.fourxx_step env 2 0 _ _ h4

/-- Witness for C5: all-timeout attempts give 3 calls, sleeps 1 s and 3 s
and the unreachable error; an immediate `BadRequestError` gives 1 call. -/
theorem C5_generate_retry_policy_witness :
    Groq.generate (fun _ => .timeoutErr) = ⟨3, [1, 3], .unreachable .timeoutErr⟩ ∧
    (Groq.generate (fun _ => .badRequest)).attempts = 0 + 1 :=
  ⟨C5_generate_retry_policy.1 (fun _ => .timeoutErr)
      (fun _ _ => Or.inl rfl),
   (C5_generate_retry_policy.2 (fun _ => .badRequest) 0 (by decide)
      (fun i hi => absurd hi (by omega)) (Or.inl rfl)).1⟩

/-- `embRows` preserves the record count. -/
theorem VStore.embRows_length (records : List VStore.ChunkRecord)
    (rows : List (List ℚ)) (h : VStore.embRows records = some rows) :
    rows.length = records.length := by
  induction records generalizing rows with
  | nil => simp [VStore.embRows] at h; simp [← h]
  | cons r rs ih =>
    simp only [VStore.embRows] at h
    cases he : r.embedding with
    | none => rw [he] at h; simp at h
    | some v =>
      rw [he] at h
      cases hr : VStore.embRows rs with
      | none => rw [hr] at h; simp at h
      | some vs =>
        rw [hr] at h
        simp at h
        simp [← h, ih vs hr]

/-- The rows of `embRows` are exactly the embeddings, in order. -/
theorem VStore.embRows_map (records : List VStore.ChunkRecord)
    (rows : List (List ℚ)) (h : VStore.embRows records = some rows) :
    records.map (fun r => r.embedding) = rows.map some := by
  induction records generalizing rows with
  | nil => simp [VStore.embRows] at h; simp [← h]
  | cons r rs ih =>
    simp only [VStore.embRows] at h
    cases he : r.embedding with
    | none => rw [he] at h; simp at h
    | some v =>
      rw [he] at h
      cases hr : VStore.embRows rs with
      | none => rw [hr] at h; simp at h
      | some vs =>
        rw [hr] at h
        simp at h
        simp [← h, he, ih vs hr]

/-- When all records carry an embedding of the common length `n` (and
there is at least one record), the numpy matrix is built with
`shape[1] = n` and one row per record. -/
theorem VStore.embMatrix_of_uniform (records : List VStore.ChunkRecord) (n : Nat)
    (hne : records ≠ [])
    (h : ∀ r ∈ records, ∃ v, r.embedding = some v ∧ v.length = n) :
    ∃ rows, VStore.embMatrix records = some (n, rows) ∧
      records.map (fun r => r.embedding) = rows.map some := by
  have hrows : ∃ rows, VStore.embRows records = some rows ∧
      ∀ w ∈ rows, w.length = n := by
    clear hne
    induction records with
    | nil => exact ⟨[], rfl, by simp⟩
    | cons r rs ih =>
      obtain ⟨v, hv, hvl⟩ := h r (by simp)
      obtain ⟨rows', hr', hw'⟩ := ih (fun r hr => h r (by simp [hr]))
      exact ⟨v :: rows', by simp [VStore.embRows, hv, hr'], by
        intro w hw
        rcases List.mem_cons.mp hw with rfl | hw
        · exact hvl
        · exact hw' w hw⟩
  obtain ⟨rows, hr, hw⟩ := hrows
  refine ⟨rows, ?_, VStore.embRows_map records rows hr⟩
  cases rows with
  | nil =>
    have := VStore.embRows_length records [] hr
    cases records with
    | nil => exact absurd rfl hne
    | cons a as => simp at this
  | cons v vs =>
    simp only [VStore.embMatrix, hr]
    have hv : v.length = n := hw v (by simp)
    have hall : vs.all (fun w => w.length = v.length) = true := by
      rw [List.all_eq_true]
      intro w hwm
      simp [hw w (by simp [hwm]), hv]
    rw [if_pos hall, hv]

/-- Every row of a successfully built matrix has length `shape[1]`. -/
theorem VStore.embMatrix_row_len (records : List VStore.ChunkRecord)
    (d : Nat) (rows : List (List ℚ)) (w : List ℚ)
    (h : VStore.embMatrix records = some (d, rows)) (hw : w ∈ rows) :
    w.length = d := by
  simp only [VStore.embMatrix] at h
  cases hr : VStore.embRows records with
  | none => rw [hr] at h; simp at h
  | some rs =>
    rw [hr] at h
    cases rs with
    | nil => simp at h
    | cons v vs =>
      dsimp only at h
      by_cases hall : vs.all (fun x => x.length = v.length) = true
      · rw [if_pos hall] at h
        simp at h
        obtain ⟨rfl, rfl⟩ := h
        rcases List.mem_cons.mp hw with rfl | hwm
        · rfl
        · exact of_decide_eq_true ((List.all_eq_true.mp hall) w hwm)
      · rw [if_neg hall] at h; simp at h

/-- A present embedding belongs to the rows of the built matrix. -/
theorem VStore.embMatrix_mem (records : List VStore.ChunkRecord)
    (d : Nat) (rows : List (List ℚ)) (r : VStore.ChunkRecord) (v : List ℚ)
    (h : VStore.embMatrix records = some (d, rows)) (hr : r ∈ records)
    (hv : r.embedding = some v) : v ∈ rows := by
  simp only [VStore.embMatrix] at h
  cases hrr : VStore.embRows records with
  | none => rw [hrr] at h; simp at h
  | some rs =>
    rw [hrr] at h
    have hmap := VStore.embRows_map records rs hrr
    have : some v ∈ rs.map some := by
      rw [← hmap]
      exact List.mem_map.mpr ⟨r, hr, hv⟩
    have hvrs : v ∈ rs := by
      rcases List.mem_map.mp this with ⟨w, hw, hws⟩
      cases hws
      exact hw
    cases rs with
    | nil => simp at hvrs
    | cons a as =>
      dsimp only at h
      by_cases hall : as.all (fun x => x.length = a.length) = true
      · rw [if_pos hall] at h
        simp at h
        obtain ⟨_, rfl⟩ := h
        exact hvrs
      · rw [if_neg hall] at h; simp at h

/-- A successful `load` yields a loaded, consistent store. -/
theorem VStore.load_ok (st st' : VStore.VectorStore) (disk : VStore.DiskState)
    (hc : VStore.consistent ⟨st, disk⟩) (h : st.load disk = .ok st') :
    VStore.consistent ⟨st', disk⟩ ∧ st'.loaded = true := by
  obtain ⟨hdim, hmem, hdisk, hsome, hinit⟩ := hc
  cases hf : disk.faiss_file with
  | some idx =>
    cases hp : disk.pkl_file with
    | some md =>
      rw [VStore.VectorStore.load, hf, hp] at h
      dsimp only at h
      by_cases hd : idx.d ≠ st.dimension
      · rw [if_pos hd] at h
        exact absurd h (by simp)
      · rw [if_neg hd] at h
        cases Except.ok.inj h
        obtain ⟨hlen, hd384⟩ := hdisk idx md hf hp
        refine ⟨⟨hdim, ?_, hdisk, hsome, ?_⟩, rfl⟩
        · intro idx' hidx'
          cases Option.some.inj hidx'
          exact ⟨hlen, hd384⟩
        · intro hb
          exact absurd hb (by simp)
    | none =>
      rw [VStore.VectorStore.load, hf, hp] at h
      dsimp only at h
      cases Except.ok.inj h
      refine ⟨⟨hdim, ?_, hdisk, hsome, ?_⟩, rfl⟩
      · intro idx' hidx'
        cases Option.some.inj hidx'
        exact ⟨rfl, hdim⟩
      · intro hb
        exact absurd hb (by simp)
  | none =>
    rw [VStore.VectorStore.load, hf] at h
    dsimp only at h
    cases Except.ok.inj h
    refine ⟨⟨hdim, ?_, hdisk, hsome, ?_⟩, rfl⟩
    · intro idx' hidx'
      cases Option.some.inj hidx'
      exact ⟨rfl, hdim⟩
    · intro hb
      exact absurd hb (by simp)

/-- In a consistent system, `_ensure_loaded` never raises, and its result
is loaded and consistent (the disk is untouched). -/
theorem VStore.ensure_ok (st : VStore.VectorStore) (disk : VStore.DiskState)
    (hc : VStore.consistent ⟨st, disk⟩) :
    ∃ st', st._ensure_loaded disk = .ok st' ∧
      VStore.consistent ⟨st', disk⟩ ∧ st'.loaded = true := by
  rw [VStore.VectorStore._ensure_loaded]
  by_cases hl : st.loaded
  · exact ⟨st, by rw [if_pos hl], hc, hl⟩
  · rw [if_neg hl]
    have hb : st.loaded = false := by simp [hl]
    have hini := hc.2.2.2.2 hb
    have hst : st = VStore.Sys.init.store := congrArg VStore.Sys.store hini
    have hdk : disk = VStore.Sys.init.disk := congrArg VStore.Sys.disk hini
    cases hld : st.load disk with
    | error e =>
      rw [hst, hdk] at hld
      exact absurd hld (by simp [VStore.Sys.init, VStore.VectorStore.load])
    | ok st' =>
      obtain ⟨hc', hl'⟩ := VStore.load_ok st st' disk hc hld
      exact ⟨st', rfl, hc', hl'⟩

/-- Unfolding of the `add` control flow. -/
theorem VStore.add_eq (st : VStore.VectorStore) (disk : VStore.DiskState)
    (records : List VStore.ChunkRecord) :
    st.add disk records =
      match st._ensure_loaded disk with
      | .error e => .error e
      | .ok st1 =>
        if records = [] then .ok st1
        else
          match VStore.embMatrix records with
          | none => .error "invalid embeddings array"
          | some (d, rows) =>
            if d ≠ st1.dimension then .error "Embedding dimension mismatch"
            else
              match st1.index with
              | some idx =>
                .ok { st1 with
                        index := some ⟨idx.d, idx.vectors ++ rows⟩,
                        metadata := st1.metadata ++ records.map VStore.ChunkRecord.to_dict }
              | none => .error "index not initialised" := by
  unfold VStore.VectorStore.add
  cases h : st._ensure_loaded disk <;> rfl

/-- Unfolding of the `persist` control flow. -/
theorem VStore.persist_eq (st : VStore.VectorStore) (disk : VStore.DiskState) :
    st.persist disk =
      match st._ensure_loaded disk with
      | .error e => .error e
      | .ok st1 =>
        match st1.index with
        | some idx =>
          .ok (st1, { faiss_file := some idx, pkl_file := some st1.metadata })
        | none => .error "index not initialised" := by
  unfold VStore.VectorStore.persist
  cases h : st._ensure_loaded disk <;> rfl

/-- Unfolding of the `search` control flow (state effect only). -/
theorem VStore.search_eq (st : VStore.VectorStore) (disk : VStore.DiskState)
    (q : List ℚ) (k : Nat) :
    st.search disk q k =
      match st._ensure_loaded disk with
      | .error e => .error e
      | .ok st1 =>
        match st1.index with
        | none => .error "index not initialised"
        | some idx =>
          if idx.vectors.length = 0 then .ok (st1, [])
          else
            .ok (st1, ((VStore.sortDescBy (fun p => p.2)
                (idx.vectors.enum.map (fun p => (p.1, VStore.dot q p.2)))).take k).filterMap
              (fun p => (st1.metadata.get? p.1).map (fun m => (m, p.2)))) := by
  unfold VStore.VectorStore.search
  cases h : st._ensure_loaded disk <;> rfl

/-- The row count of a successfully built embedding matrix. -/
theorem VStore.embMatrix_length (records : List VStore.ChunkRecord)
    (d : Nat) (rows : List (List ℚ))
    (hM : VStore.embMatrix records = some (d, rows)) :
    rows.length = records.length := by
  simp only [VStore.embMatrix] at hM
  cases hr : VStore.embRows records with
  | none => rw [hr] at hM; simp at hM
  | some rs =>
    rw [hr] at hM
    cases rs with
    | nil => simp at hM
    | cons a as =>
      dsimp only at hM
      by_cases hall : as.all (fun x => x.length = a.length) = true
      · rw [if_pos hall] at hM
        simp at hM
        obtain ⟨_, hM2⟩ := hM
        rw [← hM2]
        exact VStore.embRows_length records _ hr
      · rw [if_neg hall] at hM; simp at hM

/-- Every step of the store machine preserves the quiescent invariant. -/
theorem VStore.step_consistent (s : VStore.Sys) (op : VStore.Op)
    (h : VStore.consistent s) : VStore.consistent (s.step op) := by
  obtain ⟨st, disk⟩ := s
  cases op with
  | load =>
    show VStore.consistent (match st.load disk with
      | .ok st' => ⟨st', disk⟩
      | .error _ => ⟨st, disk⟩)
    cases hld : st.load disk with
    | ok st' => exact (VStore.load_ok st st' disk h hld).1
    | error e => exact h
  | add records =>
    show VStore.consistent (match st.add disk records with
      | .ok st' => ⟨st', disk⟩
      | .error _ => ⟨st, disk⟩)
    cases hadd : st.add disk records with
    | error e => exact h
    | ok st' =>
      show VStore.consistent ⟨st', disk⟩
      rw [VStore.add_eq] at hadd
      obtain ⟨st1, hE, hc1, hl1⟩ := VStore.ensure_ok st disk h
      rw [hE] at hadd
      dsimp only at hadd
      by_cases hrec : records = []
      · rw [if_pos hrec] at hadd
        cases Except.ok.inj hadd
        exact hc1
      · rw [if_neg hrec] at hadd
        cases hM : VStore.embMatrix records with
        | none =>
          rw [hM] at hadd
          exact absurd hadd (by simp)
        | some p =>
          obtain ⟨d, rows⟩ := p
          rw [hM] at hadd
          dsimp only at hadd
          by_cases hd : d ≠ st1.dimension
          · rw [if_pos hd] at hadd
            exact absurd hadd (by simp)
          · rw [if_neg hd] at hadd
            cases hix : st1.index with
            | none =>
              rw [hix] at hadd
              exact absurd hadd (by simp)
            | some idx =>
              rw [hix] at hadd
              dsimp only at hadd
              cases Except.ok.inj hadd
              obtain ⟨hdim1, hmem1, hdisk1, hsome1, _⟩ := hc1
              obtain ⟨hlen1, hd1⟩ := hmem1 idx hix
              have hrl : rows.length = records.length :=
                VStore.embMatrix_length records d rows hM
              refine ⟨hdim1, ?_, hdisk1, hsome1, ?_⟩
              · intro idx' hidx'
                cases Option.some.inj hidx'
                constructor
                · show (st1.metadata ++ records.map VStore.ChunkRecord.to_dict).length =
                    (idx.vectors ++ rows).length
                  simp [hlen1, hrl]
                · exact hd1
              · intro hb
                rw [show ({ st1 with
                    index := some ⟨idx.d, idx.vectors ++ rows⟩,
                    metadata := st1.metadata ++ records.map VStore.ChunkRecord.to_dict } :
                      VStore.VectorStore).loaded = st1.loaded from rfl, hl1] at hb
                exact absurd hb (by simp)
  | persist =>
    show VStore.consistent (match st.persist disk with
      | .ok (st', disk') => ⟨st', disk'⟩
      | .error _ => ⟨st, disk⟩)
    cases hper : st.persist disk with
    | error e => exact h
    | ok p =>
      obtain ⟨st', disk'⟩ := p
      show VStore.consistent ⟨st', disk'⟩
      rw [VStore.persist_eq] at hper
      obtain ⟨st1, hE, hc1, hl1⟩ := VStore.ensure_ok st disk h
      rw [hE] at hper
      dsimp only at hper
      cases hix : st1.index with
      | none =>
        rw [hix] at hper
        exact absurd hper (by simp)
      | some idx =>
        rw [hix] at hper
        dsimp only at hper
        obtain ⟨h1, h2⟩ := Prod.mk.injEq .. ▸ Except.ok.inj hper
        cases h1
        cases h2
        obtain ⟨hdim1, hmem1, hdisk1, hsome1, _⟩ := hc1
        obtain ⟨hlen1, hd1⟩ := hmem1 idx hix
        refine ⟨hdim1, hmem1, ?_, by simp, ?_⟩
        · intro idx2 md2 hf2 hp2
          cases Option.some.inj hf2
          cases Option.some.inj hp2
          exact ⟨hlen1, hd1⟩
        · intro hb
          rw [hl1] at hb
          exact absurd hb (by simp)
  | search q k =>
    show VStore.consistent (match st.search disk q k with
      | .ok (st', _) => ⟨st', disk⟩
      | .error _ => ⟨st, disk⟩)
    cases hsr : st.search disk q k with
    | error e => exact h
    | ok p =>
      obtain ⟨st', res⟩ := p
      show VStore.consistent ⟨st', disk⟩
      rw [VStore.search_eq] at hsr
      obtain ⟨st1, hE, hc1, hl1⟩ := VStore.ensure_ok st disk h
      rw [hE] at hsr
      dsimp only at hsr
      cases hix : st1.index with
      | none =>
        rw [hix] at hsr
        exact absurd hsr (by simp)
      | some idx =>
        rw [hix] at hsr
        dsimp only at hsr
        by_cases hz : idx.vectors.length = 0
        · rw [if_pos hz] at hsr
          obtain ⟨h1, _⟩ := Prod.mk.injEq .. ▸ Except.ok.inj hsr
          cases h1
          exact hc1
        · rw [if_neg hz] at hsr
          obtain ⟨h1, _⟩ := Prod.mk.injEq .. ▸ Except.ok.inj hsr
          cases h1
          exact hc1

/-- Every state reachable from the fresh process state is consistent. -/
theorem VStore.run_consistent (ops : List VStore.Op) :
    VStore.consistent (VStore.Sys.run ops) := by
  have hinit : VStore.consistent VStore.Sys.init := by
    refine ⟨rfl, ?_, ?_, by simp [VStore.Sys.init], fun _ => rfl⟩
    · intro idx hidx
      exact absurd hidx (by simp [VStore.Sys.init])
    · intro idx md hf hp
      exact absurd hf (by simp [VStore.Sys.init])
  rw [VStore.Sys.run]
  induction ops using List.reverseRecOn with
  | nil => exact hinit
  | append_singleton ops op ih =>
    rw [List.foldl_append]
    exact VStore.step_consistent _ op ih

/-- The observable vector count of the in-memory index (`ntotal`; 0
before the index object exists). -/
def VStore.vecCount (st : VStore.VectorStore) : Nat :=
  match st.index with
  | some idx => idx.vectors.length
  | none => 0

/-- `_ensure_loaded` changes neither the sidecar nor the vector count in
any reachable (consistent) system, and never raises there. -/
theorem VStore.ensure_preserves (st : VStore.VectorStore) (disk : VStore.DiskState)
    (hc : VStore.consistent ⟨st, disk⟩) :
    ∃ st', st._ensure_loaded disk = .ok st' ∧
      st'.metadata = st.metadata ∧ VStore.vecCount st' = VStore.vecCount st := by
  rw [VStore.VectorStore._ensure_loaded]
  by_cases hl : st.loaded
  · exact ⟨st, by rw [if_pos hl], rfl, rfl⟩
  · rw [if_neg hl]
    have hb : st.loaded = false := by simp [hl]
    have hini := hc.2.2.2.2 hb
    have hst : st = VStore.Sys.init.store := congrArg VStore.Sys.store hini
    have hdk : disk = VStore.Sys.init.disk := congrArg VStore.Sys.disk hini
    rw [hst, hdk]
    exact ⟨_, rfl, rfl, rfl⟩

/-- C2: in every run of the store machine from the fresh state, the
metadata sidecar length equals the index vector count at every quiescent
point; a non-empty `add` whose records all carry a 384-dim embedding
succeeds, appending one sidecar entry per appended vector in the same
order (so the i-th appended vector's id is its sidecar position); and an
`add` including a present embedding whose dimension is not 384 raises
(leaving the state unchanged, since a raising step is a no-op of the
machine). -/
theorem C2_sidecar_matches_index :
    (∀ ops : List VStore.Op, ∀ idx,
      (VStore.Sys.run ops).store.index = some idx →
      (VStore.Sys.run ops).store.metadata.length = idx.vectors.length) ∧
    (∀ (st : VStore.VectorStore) (disk : VStore.DiskState)
        (records : List VStore.ChunkRecord) (idx : VStore.FaissIndex),
      st.dimension = 384 → st.loaded = true → st.index = some idx →
      records ≠ [] →
      (∀ r ∈ records, ∃ v, r.embedding = some v ∧ v.length = 384) →
      ∃ rows, st.add disk records =
          .ok { st with index := some ⟨idx.d, idx.vectors ++ rows⟩,
                        metadata := st.metadata ++ records.map VStore.ChunkRecord.to_dict } ∧
        records.map (fun r => r.embedding) = rows.map some ∧
        rows.length = records.length) ∧
    (∀ (st : VStore.VectorStore) (disk : VStore.DiskState)
        (records : List VStore.ChunkRecord) (r : VStore.ChunkRecord) (v : List ℚ),
      st.dimension = 384 → st.loaded = true →
      r ∈ records → r.embedding = some v → v.length ≠ 384 →
      ∃ e, st.add disk records = .error e) := by
  refine ⟨?_, ?_, ?_⟩
  · intro ops idx hidx
    exact ((VStore.run_consistent ops).2.1 idx hidx).1
  · intro st disk records idx hdim hl hidx hne hemb
    obtain ⟨rows, hM, hmap⟩ := VStore.embMatrix_of_uniform records 384 hne
      (by intro r hr; obtain ⟨v, hv, hvl⟩ := hemb r hr; exact ⟨v, hv, hvl⟩)
    refine ⟨rows, ?_, hmap, VStore.embMatrix_length records 384 rows hM⟩
    rw [VStore.add_eq, VStore.VectorStore._ensure_loaded, if_pos hl]
    dsimp only
    rw [if_neg hne, hM]
    dsimp only
    rw [if_neg (by rw [hdim]; simp), hidx]
  · intro st disk records r v hdim hl hr hv hvl
    have hne : records ≠ [] := by
      intro hx
      rw [hx] at hr
      exact absurd hr (by simp)
    rw [VStore.add_eq, VStore.VectorStore._ensure_loaded, if_pos hl]
    dsimp only
    rw [if_neg hne]
    cases hM : VStore.embMatrix records with
    | none => exact ⟨_, rfl⟩
    | some p =>
      obtain ⟨d, rows⟩ := p
      have hvrow := VStore.embMatrix_mem records d rows r v hM hr hv
      have hvd := VStore.embMatrix_row_len records d rows v hM hvrow
      dsimp only
      rw [if_pos (by rw [hdim, ← hvd]; exact hvl)]
      exact ⟨_, rfl⟩

/-- Concrete store used by the C2 witness: loaded, empty, dimension 384. -/
def VStore.c2store : VStore.VectorStore :=
  { dimension := 384, loaded := true, index := some ⟨384, []⟩, metadata := [] }

/-- Concrete record with a valid 384-dim embedding. -/
def VStore.c2rec : VStore.ChunkRecord :=
  { chunk_id := "c0", text := "t", source_file := "doc.pdf",
    page_number := 1, chunk_index := 0,
    embedding := some (List.replicate 384 (0 : ℚ)) }

/-- Concrete record with a 3-dim embedding (dimension violation). -/
def VStore.c2bad : VStore.ChunkRecord :=
  { chunk_id := "c1", text := "t", source_file := "doc.pdf",
    page_number := 1, chunk_index := 1,
    embedding := some [0, 0, 0] }

/-- Witness for C2: the invariant after a concrete `load`; a concrete
1-record `add` of a valid embedding succeeds with one appended sidecar
entry; a concrete `add` of a 3-dim embedding raises. -/
theorem C2_sidecar_matches_index_witness :
    ((VStore.Sys.run [.load]).store.index = some ⟨384, []⟩ ∧
      (VStore.Sys.run [.load]).store.metadata.length = (384, ([] : List (List ℚ))).2.length) ∧
    (∃ rows, VStore.c2store.add ⟨none, none⟩ [VStore.c2rec] =
        .ok { VStore.c2store with
                index := some ⟨384, [] ++ rows⟩,
                metadata := [] ++ [VStore.c2rec].map VStore.ChunkRecord.to_dict } ∧
      [VStore.c2rec].map (fun r => r.embedding) = rows.map some ∧
      rows.length = [VStore.c2rec].length) ∧
    (∃ e, VStore.c2store.add ⟨none, none⟩ [VStore.c2bad] = .error e) := by
  refine ⟨⟨rfl, C2_sidecar_matches_index.1 [.load] ⟨384, []⟩ rfl⟩, ?_, ?_⟩
  · exact C2_sidecar_matches_index.2.1 VStore.c2store ⟨none, none⟩ [VStore.c2rec]
      ⟨384, []⟩ rfl rfl rfl (by simp)
      (by
        intro r hr
        rw [List.mem_singleton] at hr
        subst hr
        exact ⟨List.replicate 384 (0 : ℚ), rfl, by rw [List.length_replicate]⟩)
  · exact C2_sidecar_matches_index.2.2 VStore.c2store ⟨none, none⟩ [VStore.c2bad]
      VStore.c2bad [0, 0, 0] rfl rfl (by simp) rfl (by simp)

/-- C9: for every reachable system state, `add([])` returns normally and
leaves the metadata sidecar and the index vector count exactly unchanged. -/
theorem C9_add_empty_is_noop (ops : List VStore.Op) :
    ∃ st', (VStore.Sys.run ops).store.add (VStore.Sys.run ops).disk [] = .ok st' ∧
      st'.metadata = (VStore.Sys.run ops).store.metadata ∧
      VStore.vecCount st' = VStore.vecCount (VStore.Sys.run ops).store := by
  have hc : VStore.consistent ⟨(VStore.Sys.run ops).store, (VStore.Sys.run ops).disk⟩ :=
    VStore.run_consistent ops
  obtain ⟨st', hE, hmd, hvc⟩ :=
    VStore.ensure_preserves (VStore.Sys.run ops).store (VStore.Sys.run ops).disk hc
  refine ⟨st', ?_, hmd, hvc⟩
  rw [VStore.add_eq, hE]
  rfl

/-- Concrete records for the persist failure scenario (C4). -/
def VStore.c4rec1 : VStore.ChunkRecord :=
  { chunk_id := "c1", text := "text one", source_file := "doc.pdf",
    page_number := 1, chunk_index := 0,
    embedding := some (List.replicate 384 (0 : ℚ)) }

/-- Second ingested record (C4 scenario). -/
def VStore.c4rec2 : VStore.ChunkRecord :=
  { chunk_id := "c2", text := "text two", source_file := "doc.pdf",
    page_number := 1, chunk_index := 1,
    embedding := some (List.replicate 384 (0 : ℚ)) }

/-- The system after a first successful ingest-and-persist. -/
def VStore.c4sys1 : VStore.Sys :=
  VStore.Sys.run [.load, .add [VStore.c4rec1], .persist]

/-- The same system after a second `add`, just before its `persist`. -/
def VStore.c4sys2 : VStore.Sys := VStore.c4sys1.step (.add [VStore.c4rec2])

/-- The disk after the second `persist` fails between its two writes. -/
def VStore.c4crashDisk : VStore.DiskState :=
  VStore.persistCrashMidway VStore.c4sys2.store VStore.c4sys2.disk

set_option maxRecDepth 16384 in
/-- C4 (refutation of atomic persistence): `persist` writes the two
artifacts in place (`faiss.write_index` directly to `index.faiss`, then
`open(pkl_path, "wb")`), with no temporary file and no rename.  If the
pickle write fails after the index write, the previously persisted
`index.faiss` has already been overwritten (it now holds 2 vectors) while
`index.pkl` still holds the old 1-entry sidecar, so the on-disk pair is
both modified and mutually inconsistent — the spec requires the existing
files to remain untouched on failure. -/
theorem C4_persist_midfail_clobbers_files :
    VStore.c4crashDisk.faiss_file ≠ VStore.c4sys1.disk.faiss_file ∧
    VStore.c4crashDisk.pkl_file = VStore.c4sys1.disk.pkl_file ∧
    VStore.c4crashDisk.faiss_file.map (fun i => i.vectors.length) = some 2 ∧
    VStore.c4crashDisk.pkl_file.map List.length = some 1 := by
  refine ⟨?_, rfl, rfl, rfl⟩
  intro h
  have := congrArg (fun o => o.map (fun i => i.vectors.length)) h
  simp only [show VStore.c4crashDisk.faiss_file.map (fun i => i.vectors.length) =
    some 2 from rfl] at this
  rw [show VStore.c4sys1.disk.faiss_file.map (fun i => i.vectors.length) =
    some 1 from rfl] at this
  exact absurd (Option.some.inj this) (by decide)

/-- A rejected candidate leaves the accepted list unchanged and has
similarity at most 0.80 with every accepted chunk. -/
theorem Retriever.dedupStep_false (c : Retriever.RetrievedChunk)
    (acc : List Retriever.AChunk) (h : (Retriever.dedupStep c acc).2 = false) :
    (Retriever.dedupStep c acc).1 = acc ∧
      ∀ e ∈ acc, Retriever._jaccard_similarity c.text e.chunk.text ≤ 8 / 10 := by
  induction acc with
  | nil => exact ⟨rfl, by simp⟩
  | cons e rest ih =>
    rw [Retriever.dedupStep] at h ⊢
    by_cases hj : Retriever._jaccard_similarity c.text e.chunk.text > 8 / 10
    · rw [if_pos hj] at h
      by_cases hs : c.score > e.chunk.score
      · rw [if_pos hs] at h
        simp at h
      · rw [if_neg hs] at h
        simp at h
    · rw [if_neg hj] at h ⊢
      dsimp only at h ⊢
      obtain ⟨h1, h2⟩ := ih h
      refine ⟨by rw [h1], ?_⟩
      intro f hf
      rcases List.mem_cons.mp hf with rfl | hf
      · exact le_of_not_lt hj
      · exact h2 f hf

/-- Every entry of the list returned by `dedupStep` is either an original
accepted entry or the candidate marked as an overwrite. -/
theorem Retriever.dedupStep_mem (c : Retriever.RetrievedChunk)
    (acc : List Retriever.AChunk) (x : Retriever.AChunk)
    (hx : x ∈ (Retriever.dedupStep c acc).1) :
    x ∈ acc ∨ x = ⟨c, true⟩ := by
  induction acc with
  | nil => rw [Retriever.dedupStep] at hx; simp at hx
  | cons e rest ih =>
    rw [Retriever.dedupStep] at hx
    by_cases hj : Retriever._jaccard_similarity c.text e.chunk.text > 8 / 10
    · rw [if_pos hj] at hx
      by_cases hs : c.score > e.chunk.score
      · rw [if_pos hs] at hx
        dsimp only at hx
        rcases List.mem_cons.mp hx with rfl | hx
        · exact Or.inr rfl
        · exact Or.inl (List.mem_cons_of_mem e hx)
      · rw [if_neg hs] at hx
        exact Or.inl hx
    · rw [if_neg hj] at hx
      dsimp only at hx
      rcases List.mem_cons.mp hx with rfl | hx
      · exact Or.inl (List.mem_cons_self x rest)
      · rcases ih hx with h | h
        · exact Or.inl (List.mem_cons_of_mem e h)
        · exact Or.inr h

/-- Every entry of `dedupLoop` comes from the accepted list or (by chunk)
from the candidate stream. -/
theorem Retriever.dedupLoop_mem (cs : List Retriever.RetrievedChunk)
    (acc : List Retriever.AChunk) (x : Retriever.AChunk)
    (hx : x ∈ Retriever.dedupLoop acc cs) :
    x ∈ acc ∨ x.chunk ∈ cs := by
  induction cs generalizing acc with
  | nil => rw [Retriever.dedupLoop] at hx; exact Or.inl hx
  | cons c rest ih =>
    rw [Retriever.dedupLoop] at hx
    dsimp only at hx
    rcases ih _ hx with h | h
    · by_cases hd : (Retriever.dedupStep c acc).2
      · rw [if_pos hd] at h
        rcases Retriever.dedupStep_mem c acc x h with h' | h'
        · exact Or.inl h'
        · exact Or.inr (by rw [h']; simp)
      · rw [if_neg hd] at h
        rcases List.mem_append.mp h with h' | h'
        · rw [(Retriever.dedupStep_false c acc (by simpa using hd)).1] at h'
          exact Or.inl h'
        · simp at h'
          exact Or.inr (by rw [h']; simp)
    · exact Or.inr (List.mem_cons_of_mem c h)

/-- Membership in the output of `deduplicate` implies membership (as a
full record) in its input: an accepted chunk is either an input chunk
unchanged or one whose fields were overwritten by an input chunk. -/
theorem Retriever.deduplicate_subset (chunks : List Retriever.RetrievedChunk)
    (c : Retriever.RetrievedChunk) (hc : c ∈ Retriever.deduplicate chunks) :
    c ∈ chunks := by
  obtain ⟨x, hx, rfl⟩ := List.mem_map.mp hc
  rcases Retriever.dedupLoop_mem chunks [] x hx with h | h
  · simp at h
  · exact h

/-- Membership through the stable descending insertion. -/
theorem Retriever.mem_insertScoreDesc (c x : Retriever.RetrievedChunk)
    (l : List Retriever.RetrievedChunk) :
    x ∈ Retriever.insertScoreDesc c l ↔ x = c ∨ x ∈ l := by
  induction l with
  | nil => simp [Retriever.insertScoreDesc]
  | cons d rest ih =>
    rw [Retriever.insertScoreDesc]
    by_cases hs : d.score < c.score
    · rw [if_pos hs]
      simp
    · rw [if_neg hs]
      simp [ih]
      tauto

/-- Membership through the re-sort. -/
theorem Retriever.mem_sortScoreDesc (l : List Retriever.RetrievedChunk)
    (x : Retriever.RetrievedChunk) :
    x ∈ Retriever.sortScoreDesc l ↔ x ∈ l := by
  suffices h : ∀ acc, x ∈ l.foldl (fun a c => Retriever.insertScoreDesc c a) acc ↔
      x ∈ acc ∨ x ∈ l by
    rw [Retriever.sortScoreDesc, h []]
    simp
  induction l with
  | nil => intro acc; simp
  | cons c rest ih =>
    intro acc
    rw [List.foldl_cons, ih, Retriever.mem_insertScoreDesc]
    simp
    tauto

/-- `boostChunk` only ever touches the score, adding exactly 0.05 when a
filename keyword occurs in the query. -/
theorem Retriever.boostChunk_fields (q : List Char) (c : Retriever.RetrievedChunk) :
    (Retriever.boostChunk q c).text = c.text ∧
    (Retriever.boostChunk q c).source_file = c.source_file ∧
    (Retriever.boostChunk q c).page_number = c.page_number ∧
    ((Retriever.boostChunk q c).score = c.score ∨
      (Retriever.boostChunk q c).score = c.score + 5 / 100) := by
  rw [Retriever.boostChunk]
  split_ifs <;> simp

/-- C6: every chunk returned by the retrieval pipeline downstream of the
FAISS search stems from a raw search result whose (pre-boost) score is at
least the threshold: the threshold filter runs before the +0.05 re-rank
boost, so boosting only raises scores of chunks already above threshold,
and every output score is the originating result's score, possibly +0.05. -/
theorem C6_threshold_filter_before_boost (raw : List Retriever.RetrievedChunk)
    (query : List Char) (threshold : ℚ) (c : Retriever.RetrievedChunk)
    (hc : c ∈ Retriever.retrieveFrom raw query threshold) :
    ∃ s ∈ raw, threshold ≤ s.score ∧
      c.text = s.text ∧ c.source_file = s.source_file ∧
      c.page_number = s.page_number ∧
      (c.score = s.score ∨ c.score = s.score + 5 / 100) ∧
      threshold ≤ c.score := by
  rw [Retriever.retrieveFrom] at hc
  have hb := Retriever.deduplicate_subset _ _ hc
  rw [Retriever._apply_reranking_boost, Retriever.mem_sortScoreDesc] at hb
  obtain ⟨f, hf, rfl⟩ := List.mem_map.mp hb
  obtain ⟨hfr, hft⟩ := List.mem_filter.mp hf
  have hth : threshold ≤ f.score := le_of_not_lt (by simpa using hft)
  obtain ⟨h1, h2, h3, h4⟩ := Retriever.boostChunk_fields (Txt.lowerStr query) f
  refine ⟨f, hfr, hth, h1, h2, h3, h4, ?_⟩
  rcases h4 with h4 | h4 <;> rw [h4]
  · exact hth
  · linarith

/-- Concrete raw result for the C6 witness: integral score 1, a filename
with no usable keyword, threshold 0. -/
def Retriever.c6raw : Retriever.RetrievedChunk :=
  { text := String.toList "abc", source_file := String.toList "a.pdf",
    page_number := 1, score := 1 }

/-- Witness for C6 at a concrete one-result search. -/
theorem C6_threshold_filter_before_boost_witness :
    ∃ s ∈ [Retriever.c6raw], (0 : ℚ) ≤ s.score ∧
      Retriever.c6raw.text = s.text ∧ Retriever.c6raw.source_file = s.source_file ∧
      Retriever.c6raw.page_number = s.page_number ∧
      (Retriever.c6raw.score = s.score ∨ Retriever.c6raw.score = s.score + 5 / 100) ∧
      (0 : ℚ) ≤ Retriever.c6raw.score :=
  C6_threshold_filter_before_boost [Retriever.c6raw] (String.toList "q") 0
    Retriever.c6raw (by decide)

/-- `_jaccard_similarity` expressed through finite character sets. -/
theorem Retriever.jaccard_eq_finset (a b : List Char) :
    Retriever._jaccard_similarity a b =
      if a.toFinset ∪ b.toFinset = ∅ then 0
      else ((a.toFinset ∩ b.toFinset).card : ℚ) /
        ((a.toFinset ∪ b.toFinset).card : ℚ) := by
  simp only [Retriever._jaccard_similarity]
  have hu : (a.dedup ++ b.dedup).dedup.toFinset = a.toFinset ∪ b.toFinset := by
    ext x; simp
  have hulen : (a.dedup ++ b.dedup).dedup.length = (a.toFinset ∪ b.toFinset).card := by
    rw [← hu, List.toFinset_card_of_nodup (List.nodup_dedup _)]
  have hilen : (a.dedup.filter (· ∈ b.dedup)).length =
      (a.toFinset ∩ b.toFinset).card := by
    rw [← List.toFinset_card_of_nodup ((List.nodup_dedup a).filter _)]
    congr 1
    ext x
    simp
  have hcond : (a.dedup ++ b.dedup).dedup = [] ↔ a.toFinset ∪ b.toFinset = ∅ := by
    rw [← List.toFinset_eq_empty_iff, hu]
  by_cases hc : (a.dedup ++ b.dedup).dedup = []
  · rw [if_pos hc, if_pos (hcond.mp hc)]
  · rw [if_neg hc, if_neg (fun hx => hc (hcond.mpr hx)), hilen, hulen]

/-- Character-set Jaccard similarity is symmetric. -/
theorem Retriever.jaccard_comm (a b : List Char) :
    Retriever._jaccard_similarity a b = Retriever._jaccard_similarity b a := by
  rw [Retriever.jaccard_eq_finset, Retriever.jaccard_eq_finset,
    Finset.union_comm, Finset.inter_comm]

/-- The pair property the amended deduplication claim asserts: two
accepted entries neither of which was field-overwritten have similarity
at most 0.80 (both orders). -/
def Retriever.okPair (e f : Retriever.AChunk) : Prop :=
  e.overwritten = false → f.overwritten = false →
    Retriever._jaccard_similarity e.chunk.text f.chunk.text ≤ 8 / 10 ∧
    Retriever._jaccard_similarity f.chunk.text e.chunk.text ≤ 8 / 10

/-- `dedupStep` preserves pairwise compatibility: a replaced entry is
marked overwritten, which makes its pairs vacuously compatible. -/
theorem Retriever.dedupStep_pairwise (c : Retriever.RetrievedChunk)
    (acc : List Retriever.AChunk)
    (h : List.Pairwise Retriever.okPair acc) :
    List.Pairwise Retriever.okPair (Retriever.dedupStep c acc).1 := by
  induction acc with
  | nil =>
    rw [Retriever.dedupStep]
    exact List.Pairwise.nil
  | cons e rest ih =>
    rw [List.pairwise_cons] at h
    obtain ⟨he, hrest⟩ := h
    rw [Retriever.dedupStep]
    by_cases hj : Retriever._jaccard_similarity c.text e.chunk.text > 8 / 10
    · rw [if_pos hj]
      by_cases hs : c.score > e.chunk.score
      · rw [if_pos hs]
        dsimp only
        rw [List.pairwise_cons]
        refine ⟨?_, hrest⟩
        intro f _ hfalse
        exact absurd hfalse (by simp)
      · rw [if_neg hs]
        exact List.Pairwise.cons he hrest
    · rw [if_neg hj]
      dsimp only
      rw [List.pairwise_cons]
      constructor
      · intro f hf
        rcases Retriever.dedupStep_mem c rest f hf with hmem | hrepl
        · exact he f hmem
        · rw [hrepl]
          intro _ hfalse
          exact absurd hfalse (by simp)
      · exact ih hrest

/-- `dedupLoop` preserves pairwise compatibility: a freshly appended
candidate was compared against (and found dissimilar to) every accepted
entry. -/
theorem Retriever.dedupLoop_pairwise (cs : List Retriever.RetrievedChunk)
    (acc : List Retriever.AChunk)
    (h : List.Pairwise Retriever.okPair acc) :
    List.Pairwise Retriever.okPair (Retriever.dedupLoop acc cs) := by
  induction cs generalizing acc with
  | nil =>
    rw [Retriever.dedupLoop]
    exact h
  | cons c rest ih =>
    rw [Retriever.dedupLoop]
    dsimp only
    by_cases hd : (Retriever.dedupStep c acc).2
    · rw [if_pos hd]
      exact ih _ (Retriever.dedupStep_pairwise c acc h)
    · rw [if_neg hd]
      apply ih
      obtain ⟨heq, hsim⟩ := Retriever.dedupStep_false c acc (by simpa using hd)
      rw [heq, List.pairwise_append]
      refine ⟨h, by simp, ?_⟩
      intro a ha b hb
      rw [List.mem_singleton] at hb
      subst hb
      intro _ _
      exact ⟨by
        rw [Retriever.jaccard_comm]
        exact hsim a ha, hsim a ha⟩

/-- C3 (amended): in the deduplicated result, every pair of entries
neither of which was score-replaced (field-overwritten) has character-set
Jaccard similarity at most 0.80; and the Jaccard similarity of two empty
texts is 0.  (Pairs involving an overwritten entry may exceed 0.80 — see
the counterexample.) -/
theorem C3_dedup_no_overlap_amended :
    (∀ chunks : List Retriever.RetrievedChunk,
      List.Pairwise Retriever.okPair (Retriever.deduplicateA chunks)) ∧
    Retriever._jaccard_similarity [] [] = 0 := by
  constructor
  · intro chunks
    exact Retriever.dedupLoop_pairwise chunks [] List.Pairwise.nil
  · rfl

/-- First input chunk of the counterexample: characters `b..j`, score 1. -/
def Retriever.c3A : Retriever.RetrievedChunk :=
  { text := String.toList "bcdefghij", source_file := String.toList "a.pdf",
    page_number := 1, score := 1 }

/-- Second input chunk: characters `a,c..j`, score 1; its Jaccard with
`c3A` is exactly 0.80, so both are accepted. -/
def Retriever.c3B : Retriever.RetrievedChunk :=
  { text := String.toList "acdefghij", source_file := String.toList "b.pdf",
    page_number := 1, score := 1 }

/-- Third input chunk: characters `a..j`, score 2; similarity 0.90 with
both accepted chunks, higher-scored than `c3A`, so it overwrites `c3A`'s
fields. -/
def Retriever.c3C : Retriever.RetrievedChunk :=
  { text := String.toList "abcdefghij", source_file := String.toList "c.pdf",
    page_number := 1, score := 2 }

/-- The candidate `c3B` finds no duplicate among `[c3A]`. -/
theorem Retriever.c3stepB :
    Retriever.dedupStep Retriever.c3B [⟨Retriever.c3A, false⟩] =
      ([⟨Retriever.c3A, false⟩], false) := by
  have hJ : Retriever._jaccard_similarity Retriever.c3B.text Retriever.c3A.text
      = 8 / 10 := by
    simp +decide [Retriever._jaccard_similarity, Retriever.c3A, Retriever.c3B]
  rw [Retriever.dedupStep, if_neg (by rw [hJ]; exact lt_irrefl _),
    Retriever.dedupStep]

/-- The candidate `c3C` is similar to `c3A` (0.90) and higher-scored, so
it overwrites `c3A`'s fields and is dropped from the stream. -/
theorem Retriever.c3stepC :
    Retriever.dedupStep Retriever.c3C [⟨Retriever.c3A, false⟩, ⟨Retriever.c3B, false⟩] =
      ([⟨Retriever.c3C, true⟩, ⟨Retriever.c3B, false⟩], true) := by
  have hJ : Retriever._jaccard_similarity Retriever.c3C.text Retriever.c3A.text
      = 9 / 10 := by
    simp +decide [Retriever._jaccard_similarity, Retriever.c3A, Retriever.c3C]
  rw [Retriever.dedupStep, if_pos (by rw [hJ]; norm_num),
    if_pos (by decide)]

/-- The full deduplication run of the counterexample. -/
theorem Retriever.c3eval :
    Retriever.deduplicateA [Retriever.c3A, Retriever.c3B, Retriever.c3C] =
      [⟨Retriever.c3C, true⟩, ⟨Retriever.c3B, false⟩] := by
  rw [Retriever.deduplicateA, Retriever.dedupLoop]
  show Retriever.dedupLoop [⟨Retriever.c3A, false⟩] [Retriever.c3B, Retriever.c3C] = _
  rw [Retriever.dedupLoop, Retriever.c3stepB]
  show Retriever.dedupLoop [⟨Retriever.c3A, false⟩, ⟨Retriever.c3B, false⟩]
    [Retriever.c3C] = _
  rw [Retriever.dedupLoop, Retriever.c3stepC]
  show Retriever.dedupLoop [⟨Retriever.c3C, true⟩, ⟨Retriever.c3B, false⟩] [] = _
  rw [Retriever.dedupLoop]

/-- C3 counterexample (claim as stated is false): on this 3-chunk input
the returned list is a pair of chunks with Jaccard similarity 0.90 >
0.80, in which the second chunk was accepted unchanged (never
score-replaced into anything — its ghost bit is false) and the first
chunk's fields came from the third input chunk, not from the second (the
texts differ).  So the >0.80 pair is not one where "b was score-replaced
into a": the replacement of `c3A` by `c3C` created a near-duplicate pair
with the independently accepted `c3B`. -/
theorem C3_dedup_counterexample :
    Retriever.deduplicate [Retriever.c3A, Retriever.c3B, Retriever.c3C] =
      [Retriever.c3C, Retriever.c3B] ∧
    Retriever._jaccard_similarity Retriever.c3C.text Retriever.c3B.text > 8 / 10 ∧
    Retriever.c3C.text ≠ Retriever.c3B.text ∧
    (Retriever.deduplicateA [Retriever.c3A, Retriever.c3B, Retriever.c3C]).map
      Retriever.AChunk.overwritten = [true, false] := by
  have hJ : Retriever._jaccard_similarity Retriever.c3C.text Retriever.c3B.text
      = 9 / 10 := by
    simp +decide [Retriever._jaccard_similarity, Retriever.c3B, Retriever.c3C]
  refine ⟨?_, by rw [hJ]; norm_num, by decide, ?_⟩
  · rw [Retriever.deduplicate, Retriever.c3eval]
    rfl
  · rw [Retriever.c3eval]
    rfl

/-- The annotated full text that `extract_text_from_pdf` builds (named so
hypotheses about its markers can be stated). -/
def Ingest.annotated_text (pages : List (List Char)) : List Char :=
  pages.enum.foldl
    (fun acc p =>
      acc ++ Ingest.sanitize_pdf_text p.2 ++ '\n' :: Ingest.pageBreakMarker (p.1 + 1) ++ ['\n'])
    []

/-- `extract_text_from_pdf` in terms of `annotated_text`. -/
theorem Ingest.extract_eq (pages : List (List Char)) :
    Ingest.extract_text_from_pdf pages =
      if Txt.pyStrip (Ingest.stripMarkers ((Ingest.annotated_text pages).length + 1)
          (Ingest.annotated_text pages)) = [] then
        .error "contains no extractable text"
      else .ok (Ingest.annotated_text pages, pages.length) := rfl

/-- Unfolding of the `ingest_pdf` control flow. -/
theorem Ingest.ingest_eq (ct : List Char → Nat) (glnt : List Char → Nat → List Char)
    (embed : List Char → List ℚ) (pages : List (List Char)) (filename : List Char) :
    Ingest.ingest_pdf ct glnt embed pages filename =
      match Ingest.extract_text_from_pdf pages with
      | .error e => .error e
      | .ok ft =>
        if Ingest.chunk_text ct glnt ft.1 = [] then
          .error "produced no chunks after splitting"
        else
          .ok ((List.zip (Ingest.chunk_text ct glnt ft.1)
              (((Ingest.chunk_text ct glnt ft.1).map Prod.fst).map embed)).enum.map
            (fun p =>
              { chunk_id := p.1
                text := p.2.1.1
                source_file := filename
                page_number := p.2.1.2
                chunk_index := p.1
                embedding := p.2.2 })) := by
  unfold Ingest.ingest_pdf
  cases h : Ingest.extract_text_from_pdf pages <;> rfl

/-- `_lookup_page`'s accumulator stays at least 1 when every marker page
is at least 1. -/
theorem Ingest.lookupAux_ge_one (off : Nat) (pm : List (Nat × Nat)) (page : Nat)
    (hpm : ∀ q ∈ pm, 1 ≤ q.2) (hp : 1 ≤ page) :
    1 ≤ Ingest.lookupAux off page pm := by
  induction pm generalizing page with
  | nil => exact hp
  | cons q rest ih =>
    obtain ⟨o, p⟩ := q
    rw [Ingest.lookupAux]
    by_cases ho : o ≤ off
    · rw [if_pos ho]
      exact ih p (fun q hq => hpm q (List.mem_cons_of_mem _ hq))
        (hpm (o, p) (List.mem_cons_self _ _))
    · rw [if_neg ho]
      exact hp

/-- Every page that `assignPages` assigns is at least 1, provided every
marker in the page map carries a page number of at least 1. -/
theorem Ingest.assignPages_page_ge_one (clean full : List Char)
    (pm : List (Nat × Nat)) (hpm : ∀ q ∈ pm, 1 ≤ q.2)
    (cs : List (List Char)) (ss : Nat) (x : List Char × Nat)
    (hx : x ∈ Ingest.assignPages clean full pm ss cs) : 1 ≤ x.2 := by
  induction cs generalizing ss with
  | nil => rw [Ingest.assignPages] at hx; simp at hx
  | cons c rest ih =>
    rw [Ingest.assignPages] at hx
    by_cases hb : Txt.pyStrip c = []
    · rw [if_pos hb] at hx
      exact ih _ hx
    · rw [if_neg hb] at hx
      cases hidx : (match Ingest.findFrom clean c ss with
        | some i => some i
        | none => Ingest.findFrom clean c 0) with
      | some i =>
        rw [hidx] at hx
        dsimp only at hx
        rcases List.mem_cons.mp hx with rfl | hx
        · exact Ingest.lookupAux_ge_one _ pm 1 hpm le_rfl
        · exact ih _ hx
      | none =>
        rw [hidx] at hx
        dsimp only at hx
        rcases List.mem_cons.mp hx with rfl | hx
        · exact le_rfl
        · exact ih _ hx

/-- Every chunk produced by `chunk_text` has page at least 1 when all
markers in its input do. -/
theorem Ingest.chunk_text_page_ge_one (ct : List Char → Nat)
    (glnt : List Char → Nat → List Char) (full : List Char)
    (hpm : ∀ q ∈ Ingest._build_page_map full, 1 ≤ q.2)
    (x : List Char × Nat) (hx : x ∈ Ingest.chunk_text ct glnt full) : 1 ≤ x.2 :=
  Ingest.assignPages_page_ge_one _ _ _ hpm _ _ x hx

/-- Zipping a list with a mapped copy of itself pairs each element with
its own image. -/
theorem Ingest.zip_self_map {α β : Type} (g : α → β) (l : List α)
    (p : α × β) (hp : p ∈ List.zip l (l.map g)) : p.2 = g p.1 := by
  induction l with
  | nil => simp at hp
  | cons a rest ih =>
    rw [List.map_cons, List.zip_cons_cons] at hp
    rcases List.mem_cons.mp hp with rfl | hp
    · rfl
    · exact ih hp

/-- C7 (amended): for every successfully ingested page list — under the
proviso that every `[PAGE_BREAK:N]` marker occurring in the annotated
text (including any marker-shaped text inside the PDF's own pages) has
`N ≥ 1` — each returned record's embedding has dimension 384 (given that
the external embedding model returns 384-dim vectors), each
`page_number` is at least 1, and the `chunk_index` values are exactly
`0, 1, …, n-1` in order.  Without the marker proviso `page_number` can
be 0 — see the counterexample. -/
theorem C7_ingest_chunk_invariants_amended (ct : List Char → Nat)
    (glnt : List Char → Nat → List Char) (embed : List Char → List ℚ)
    (pages : List (List Char)) (filename : List Char)
    (records : List Ingest.IngRecord)
    (hembed : ∀ t, (embed t).length = 384)
    (hmarks : ∀ q ∈ Ingest._build_page_map (Ingest.annotated_text pages), 1 ≤ q.2)
    (hok : Ingest.ingest_pdf ct glnt embed pages filename = .ok records) :
    (∀ r ∈ records, r.embedding.length = 384 ∧ 1 ≤ r.page_number) ∧
    records.map Ingest.IngRecord.chunk_index = List.range records.length := by
  rw [Ingest.ingest_eq] at hok
  cases hex : Ingest.extract_text_from_pdf pages with
  | error e => rw [hex] at hok; simp at hok
  | ok ft =>
    have hft : ft.1 = Ingest.annotated_text pages := by
      rw [Ingest.extract_eq] at hex
      by_cases hcond : Txt.pyStrip (Ingest.stripMarkers
          ((Ingest.annotated_text pages).length + 1) (Ingest.annotated_text pages)) = []
      · rw [if_pos hcond] at hex; simp at hex
      · rw [if_neg hcond] at hex
        simp at hex
        rw [← hex]
    rw [hex] at hok
    dsimp only at hok
    by_cases hempty : Ingest.chunk_text ct glnt ft.1 = []
    · rw [if_pos hempty] at hok; simp at hok
    · rw [if_neg hempty] at hok
      simp only [Except.ok.injEq] at hok
      subst hok
      constructor
      · intro r hr
        obtain ⟨p, hp, rfl⟩ := List.mem_map.mp hr
        have hp2 : p.2 ∈ List.zip (Ingest.chunk_text ct glnt ft.1)
            (((Ingest.chunk_text ct glnt ft.1).map Prod.fst).map embed) := by
          have := List.enum_map_snd (List.zip (Ingest.chunk_text ct glnt ft.1)
            (((Ingest.chunk_text ct glnt ft.1).map Prod.fst).map embed))
          exact this ▸ List.mem_map_of_mem Prod.snd hp
        constructor
        · have hemb : p.2.2 = (embed ∘ Prod.fst) p.2.1 := by
            apply Ingest.zip_self_map (embed ∘ Prod.fst)
            rw [← List.map_map]
            exact hp2
          show p.2.2.length = 384
          rw [hemb]
          exact hembed _
        · show 1 ≤ p.2.1.2
          have hp2' : (p.2.1, p.2.2) ∈ List.zip (Ingest.chunk_text ct glnt ft.1)
              (((Ingest.chunk_text ct glnt ft.1).map Prod.fst).map embed) := by
            rw [Prod.mk.eta]
            exact hp2
          obtain ⟨hc, _⟩ := List.of_mem_zip hp2'
          exact Ingest.chunk_text_page_ge_one ct glnt ft.1 (hft ▸ hmarks) p.2.1 hc
      · rw [List.map_map, List.length_map]
        show List.map Prod.fst (List.zip (Ingest.chunk_text ct glnt ft.1)
            (((Ingest.chunk_text ct glnt ft.1).map Prod.fst).map embed)).enum =
          List.range (List.zip (Ingest.chunk_text ct glnt ft.1)
            (((Ingest.chunk_text ct glnt ft.1).map Prod.fst).map embed)).enum.length
        rw [List.enum_map_fst, List.enum_length]

/-- The counterexample PDF: a single page whose own text begins with the
literal marker `[PAGE_BREAK:0]` (which the sanitizer does not remove). -/
def Ingest.c7pages : List (List Char) := [String.toList "[PAGE_BREAK:0]rest"]

/-- Page assignment on the counterexample: the chunk is found at clean
offset 0, the proportional remap yields full-text offset 0, and the
injected zero marker sits at offset 0, so the chunk gets page 0. -/
theorem Ingest.c7assign :
    Ingest.assignPages (String.toList "rest\n\n") (Ingest.annotated_text Ingest.c7pages)
      (Ingest._build_page_map (Ingest.annotated_text Ingest.c7pages)) 0
      [String.toList "rest\n\n"] = [(String.toList "rest", 0)] := by
  simp only [Ingest.assignPages]
  rw [if_neg (by decide)]
  rw [show Ingest.findFrom (String.toList "rest\n\n") (String.toList "rest\n\n") 0 =
    some 0 from rfl]
  dsimp only
  simp only [Nat.cast_zero, zero_div, zero_mul, Int.floor_zero, Int.toNat_zero]
  rw [show Ingest._lookup_page 0
    (Ingest._build_page_map (Ingest.annotated_text Ingest.c7pages)) = 0 from rfl]
  decide

/-- C7 counterexample (claim as stated is false): this PDF ingests
successfully — its text is non-empty after marker stripping — yet the
single returned chunk has `page_number = 0`, violating `page_number ≥ 1`.
The fallback tokenizer and a constant 384-dim embedder instantiate the
external parameters. -/
theorem C7_ingest_page_zero_counterexample :
    Ingest.ingest_pdf Ingest.count_tokens_fallback Ingest.get_last_n_tokens_fallback
        (fun _ => List.replicate 384 (0 : ℚ)) Ingest.c7pages (String.toList "doc.pdf") =
      .ok [{ chunk_id := 0, text := String.toList "rest",
             source_file := String.toList "doc.pdf", page_number := 0,
             chunk_index := 0, embedding := List.replicate 384 (0 : ℚ) }] := by
  have hsplit : Ingest._recursive_split Ingest.count_tokens_fallback
      Ingest.get_last_n_tokens_fallback Ingest._SEPARATORS (String.toList "rest\n\n") =
      [String.toList "rest\n\n"] := by
    rw [Ingest._recursive_split.eq_def]
    dsimp only
    rw [if_pos (by decide)]
  have hct : Ingest.chunk_text Ingest.count_tokens_fallback
      Ingest.get_last_n_tokens_fallback (Ingest.annotated_text Ingest.c7pages) =
      [(String.toList "rest", 0)] := by
    rw [Ingest.chunk_text]
    rw [show Ingest.stripMarkers ((Ingest.annotated_text Ingest.c7pages).length + 1)
      (Ingest.annotated_text Ingest.c7pages) = String.toList "rest\n\n" from rfl]
    rw [hsplit]
    exact Ingest.c7assign
  rw [Ingest.ingest_eq]
  rw [show Ingest.extract_text_from_pdf Ingest.c7pages =
    .ok (Ingest.annotated_text Ingest.c7pages, 1) from rfl]
  dsimp only
  rw [hct]
  rw [if_neg (by decide)]
  rfl

/-- The benign page list of the C7 witness: no marker-shaped text of its
own. -/
def Ingest.c7wit_pages : List (List Char) := [String.toList "hello world"]

/-- Page assignment on the witness input: one chunk at page 1. -/
theorem Ingest.c7wit_assign :
    Ingest.assignPages (String.toList "hello world\n\n")
      (Ingest.annotated_text Ingest.c7wit_pages)
      (Ingest._build_page_map (Ingest.annotated_text Ingest.c7wit_pages)) 0
      [String.toList "hello world\n\n"] = [(String.toList "hello world", 1)] := by
  simp only [Ingest.assignPages]
  rw [if_neg (by decide)]
  rw [show Ingest.findFrom (String.toList "hello world\n\n")
    (String.toList "hello world\n\n") 0 = some 0 from rfl]
  dsimp only
  simp only [Nat.cast_zero, zero_div, zero_mul, Int.floor_zero, Int.toNat_zero]
  rw [show Ingest._lookup_page 0
    (Ingest._build_page_map (Ingest.annotated_text Ingest.c7wit_pages)) = 1 from rfl]
  decide

/-- The single record the witness run returns. -/
def Ingest.c7wit_rec : Ingest.IngRecord :=
  { chunk_id := 0, text := String.toList "hello world",
    source_file := String.toList "doc.pdf", page_number := 1,
    chunk_index := 0, embedding := List.replicate 384 (0 : ℚ) }

/-- The full ingest run on the witness input. -/
theorem Ingest.c7wit_eval :
    Ingest.ingest_pdf Ingest.count_tokens_fallback Ingest.get_last_n_tokens_fallback
        (fun _ => List.replicate 384 (0 : ℚ)) Ingest.c7wit_pages (String.toList "doc.pdf") =
      .ok [Ingest.c7wit_rec] := by
  have hsplit : Ingest._recursive_split Ingest.count_tokens_fallback
      Ingest.get_last_n_tokens_fallback Ingest._SEPARATORS
      (String.toList "hello world\n\n") = [String.toList "hello world\n\n"] := by
    rw [Ingest._recursive_split.eq_def]
    dsimp only
    rw [if_pos (by decide)]
  have hct : Ingest.chunk_text Ingest.count_tokens_fallback
      Ingest.get_last_n_tokens_fallback (Ingest.annotated_text Ingest.c7wit_pages) =
      [(String.toList "hello world", 1)] := by
    rw [Ingest.chunk_text]
    rw [show Ingest.stripMarkers ((Ingest.annotated_text Ingest.c7wit_pages).length + 1)
      (Ingest.annotated_text Ingest.c7wit_pages) = String.toList "hello world\n\n" from rfl]
    rw [hsplit]
    exact Ingest.c7wit_assign
  rw [Ingest.ingest_eq]
  rw [show Ingest.extract_text_from_pdf Ingest.c7wit_pages =
    .ok (Ingest.annotated_text Ingest.c7wit_pages, 1) from rfl]
  dsimp only
  rw [hct]
  rw [if_neg (by decide)]
  rfl

/-- Witness for the amended C7 on a benign one-page document. -/
theorem C7_ingest_chunk_invariants_amended_witness :
    (∀ r ∈ [Ingest.c7wit_rec], r.embedding.length = 384 ∧ 1 ≤ r.page_number) ∧
    [Ingest.c7wit_rec].map Ingest.IngRecord.chunk_index =
      List.range [Ingest.c7wit_rec].length :=
  C7_ingest_chunk_invariants_amended Ingest.count_tokens_fallback
    Ingest.get_last_n_tokens_fallback (fun _ => List.replicate 384 (0 : ℚ))
    Ingest.c7wit_pages (String.toList "doc.pdf") _
    (fun _ => by rw [List.length_replicate])
    (by decide)
    Ingest.c7wit_eval
